import Mathlib

/-!
# sponge: output writer of `protoc-gen-go-gin` and the `dao` command loop

A shallow embedding of

* `cmd/protoc-gen-go-gin/main.go`: `saveFile`, `saveFileSimple`, `isExists`,
  `firstLetterToUpper`, `saveHandlerAndRouterFiles`, `saveServiceAndRouterFiles`
  and the callback handed to `options.Run` in `main`;
* `cmd/sponge/commands/generate/dao.go`: the `RunE` loop of `DaoCommand` and
  `runGenDaoCommand`.

Go strings and byte slices are lists of byte values.  The file system is an
explicit state: a tree of directories with inodes, hard links and symbolic
links, in which a path is resolved name by name.  Every call of `os.MkdirAll`, `os.WriteFile` and
`router.GenerateFile` and every entry of `saveHandlerAndRouterFiles` and
`saveServiceAndRouterFiles` is also appended to a trace, so that statements
about what was written where, and in which order, can be made.  The packages
the two programs call but which are not among the sources at hand (the
generators, `sql2code`, the replacer) are parameters.
-/

namespace Sponge

/-! ## Bytes and the standard-library functions used by the program -/

/-- A Go `string` or `[]byte`: a sequence of byte values (each below 256). -/
abbrev Bytes := List Nat

/-- The bytes of an ASCII string literal of the source. -/
def str (s : String) : Bytes := s.toList.map Char.toNat

/-- Worker of `ReplaceAll` for a non-empty `old`: a left-to-right scan; `skip`
counts the bytes of the current match that are still to be dropped. -/
def replaceFrom (old new : Bytes) : Nat → Bytes → Bytes
  | _, [] => []
  | skip + 1, _ :: cs => replaceFrom old new skip cs
  | 0, c :: cs =>
    if old.isPrefixOf (c :: cs) then new ++ replaceFrom old new (old.length - 1) cs
    else c :: replaceFrom old new 0 cs

/-- `bytes.ReplaceAll(s, old, new)` (also `strings.ReplaceAll`): every
non-overlapping occurrence of `old`, found from left to right, is replaced by
`new`; one pass, the inserted bytes are not scanned again.  Every call site of
the program passes a non-empty literal for `old`.  For an empty `old` Go puts
`new` before every UTF-8 sequence and at the end; here it is put before every
byte and at the end, which is the same on ASCII input. -/
def ReplaceAll (s old new : Bytes) : Bytes :=
  if old = [] then s.flatMap (fun c => new ++ [c]) ++ new
  else replaceFrom old new 0 s

/-- `strings.ToUpper` on the one-byte string `s[:1]`: an ASCII lower-case
letter is upper-cased, another ASCII byte is kept, and a byte of 0x80 or more
is not valid UTF-8 on its own and comes back as U+FFFD (EF BF BD). -/
def toUpperByte (b : Nat) : Bytes :=
  if 97 ≤ b ∧ b ≤ 122 then [b - 32]
  else if b < 128 then [b]
  else [239, 191, 189]

/-- `firstLetterToUpper` of main.go. -/
def firstLetterToUpper : Bytes → Bytes
  | [] => []
  | b :: rest => toUpperByte b ++ rest

/-- `filepath.Split` (Unix): the path up to and including its last slash, and
what follows it. -/
def Split (path : Bytes) : Bytes × Bytes :=
  ((path.reverse.dropWhile (fun c => c != 47)).reverse,
   (path.reverse.takeWhile (fun c => c != 47)).reverse)

/-! ## The clock and `Format("20060102T150405")` -/

/-- The wall-clock reading `time.Now()` in local time, broken down into the
fields the layout prints.  The year is one a running system shows: it has at
most four digits. -/
structure Clock where
  year : Nat
  month : Nat
  day : Nat
  hour : Nat
  minute : Nat
  second : Nat
  year_ok : year ≤ 9999
  month_ok : 1 ≤ month ∧ month ≤ 12
  day_ok : 1 ≤ day ∧ day ≤ 31
  hour_ok : hour ≤ 23
  minute_ok : minute ≤ 59
  second_ok : second ≤ 59

/-- Decimal digits of `n`, most significant first, onto `acc`. -/
def decimalAux : Nat → Nat → Bytes → Bytes
  | 0, _, acc => acc
  | fuel + 1, n, acc =>
    if n < 10 then (48 + n) :: acc
    else decimalAux fuel (n / 10) ((48 + n % 10) :: acc)

/-- The decimal representation of `n` in ASCII. -/
def decimal (n : Nat) : Bytes := decimalAux (n + 1) n []

/-- `appendInt` of package time for a non-negative value: the decimal digits,
zero-padded on the left up to `width`, never truncated. -/
def appendInt (x width : Nat) : Bytes :=
  List.replicate (width - (decimal x).length) 48 ++ decimal x

/-- `t.Format("20060102T150405")`: four-digit year, two-digit month and day,
the letter T, two-digit hour, minute and second. -/
def formatCompact (t : Clock) : Bytes :=
  appendInt t.year 4 ++ appendInt t.month 2 ++ appendInt t.day 2 ++ [84] ++
    appendInt t.hour 2 ++ appendInt t.minute 2 ++ appendInt t.second 2

/-! ## The file system

A tree of directories with regular files, hard links and symbolic links.  A
path is resolved name by name, as the system does: empty names and `.` are
skipped, `..` steps up, symbolic links are followed. -/

/-- What a name in a directory stands for: a regular file, given by its
inode number (hard links are names with the same number and share their
bytes), a directory, or a symbolic link. -/
inductive Node where
  | file (ino : Nat)
  | dir
  | symlink (target : Bytes)
  deriving DecidableEq, Repr

/-- Error numbers the model distinguishes. -/
inductive Errno where
  | ENOENT
  | EISDIR
  | ENOTDIR
  | EACCES
  | ELOOP
  | EEXIST
  deriving DecidableEq, Repr

/-- Errors returned by the functions of the program. -/
inductive Error where
  | pathError (op : String) (path : Bytes) (errno : Errno)
  | unknownPlugin (plugin : Bytes)
  | requiredModuleName (parentName : Bytes)
  | rIsNil
  | external (text : Bytes)
  deriving DecidableEq, Repr

/-- A place in the tree: the names from the root down. -/
abbrev Loc := List Bytes

/-- A file-system state.  `nodes` binds places to what stands there (the
first binding of a place counts), `data` gives the bytes of each inode (the
first entry of an inode counts), `denied` lists the places the system refuses
to look up (permission denied), `cwd` is the working directory, from which
relative paths start. -/
structure FS where
  nodes : List (Loc × Node)
  data : List (Nat × Bytes)
  denied : List Loc
  cwd : Loc

/-- The names of a path: the pieces between its slashes. -/
def splitSlash : Bytes → List Bytes
  | [] => [[]]
  | c :: cs =>
    match splitSlash cs with
    | [] => [[]]
    | hd :: tl => if c = 47 then [] :: hd :: tl else (c :: hd) :: tl

/-- Where a path leads: to a regular file, to a directory, to a symbolic link
that is not to be followed, or to a name that is missing in an existing
directory. -/
inductive Found where
  | file (loc : Loc) (ino : Nat)
  | dir (loc : Loc)
  | link (loc : Loc)
  | absent (parent : Loc) (name : Bytes)
  deriving DecidableEq, Repr

/-- Path resolution from the place `cur` along the names that are left.
`follow` says whether a symbolic link in the last name is followed; `fuel`
bounds the number of steps, and running out of it is the error of too many
links. -/
def walk (fs : FS) (follow : Bool) : Nat → Loc → List Bytes → Except Errno Found
  | 0, _, _ => .error .ELOOP
  | _ + 1, cur, [] => .ok (.dir cur)
  | fuel + 1, cur, c :: rest =>
    if c = [] ∨ c = str "." then walk fs follow fuel cur rest
    else if c = str ".." then walk fs follow fuel cur.dropLast rest
    else if cur ++ [c] ∈ fs.denied then .error .EACCES
    else
      match fs.nodes.lookup (cur ++ [c]) with
      | none => if rest = [] then .ok (.absent cur c) else .error .ENOENT
      | some Node.dir => walk fs follow fuel (cur ++ [c]) rest
      | some (Node.file ino) =>
        if rest = [] then .ok (.file (cur ++ [c]) ino) else .error .ENOTDIR
      | some (Node.symlink target) =>
        if rest = [] ∧ follow = false then .ok (.link (cur ++ [c]))
        else if target = [] then .error .ENOENT
        else
          walk fs follow fuel (if target.head? = some 47 then [] else cur)
            (splitSlash target ++ rest)

/-- The number of resolution steps allowed for one path. -/
def walkFuel : Nat := 4096

/-- Resolution of a path: from the root when it begins with a slash, from
the working directory otherwise.  The empty path leads nowhere. -/
def resolve (fs : FS) (follow : Bool) (p : Bytes) : Except Errno Found :=
  if p = [] then .error .ENOENT
  else walk fs follow walkFuel (if p.head? = some 47 then [] else fs.cwd) (splitSlash p)

/-- The bytes of an inode. -/
def FS.content (fs : FS) (ino : Nat) : Bytes := (fs.data.lookup ino).getD []

/-- The bytes of the regular file a path leads to, if it leads to one. -/
def FS.readFile (fs : FS) (p : Bytes) : Option Bytes :=
  match resolve fs true p with
  | .ok (.file _ ino) => some (fs.content ino)
  | _ => none

/-- Result of a successful `os.Stat`: whether the path is a directory. -/
structure FileInfo where
  isDir : Bool
  deriving DecidableEq, Repr

/-- `os.Stat`: follows symbolic links. -/
def Stat (fs : FS) (p : Bytes) : Except Errno FileInfo :=
  match resolve fs true p with
  | .ok (.file _ _) => .ok ⟨false⟩
  | .ok (.dir _) => .ok ⟨true⟩
  | .ok (.link _) => .error .ELOOP
  | .ok (.absent _ _) => .error .ENOENT
  | .error e => .error e

/-- `os.IsNotExist`. -/
def IsNotExist (e : Errno) : Bool := e == .ENOENT

/-- A path without its trailing slashes. -/
def trimSlash (p : Bytes) : Bytes := (p.reverse.dropWhile (fun c => c == 47)).reverse

/-- The path itself and the paths of the directories above it, outermost
first. -/
def pathPrefixes (p : Bytes) : List Bytes :=
  (((List.range (p.length + 1)).filter
      (fun i => i == p.length || p.get? i == some 47)).map
      (fun i => trimSlash (p.take i))).filter (fun q => q != [])

/-- `os.Mkdir`: makes a directory where the path leads to a missing name; a
symbolic link in the last name is not followed. -/
def Mkdir (fs : FS) (p : Bytes) : FS × Option Error :=
  match resolve fs false p with
  | .ok (.absent parent name) =>
    ({ fs with nodes := (parent ++ [name], Node.dir) :: fs.nodes }, none)
  | .ok _ => (fs, some (.pathError "mkdir" p .EEXIST))
  | .error e => (fs, some (.pathError "mkdir" p e))

/-- Creation of a chain of directories, outermost first, stopping at the first
one that cannot be made. -/
def mkdirChain (fs : FS) : List Bytes → FS × Option Error
  | [] => (fs, none)
  | q :: rest =>
    match Stat fs q with
    | .ok info =>
      if info.isDir then mkdirChain fs rest
      else (fs, some (.pathError "mkdir" q .ENOTDIR))
    | .error e =>
      if IsNotExist e then
        match Mkdir fs q with
        | (fs1, none) => mkdirChain fs1 rest
        | (fs1, some err) => (fs1, some err)
      else (fs, some (.pathError "mkdir" q e))

/-- `os.MkdirAll(path, perm)`: nothing to do when `path` is a directory, an
error when it is something else; otherwise the missing directories above it
and `path` itself are made. -/
def MkdirAll (fs : FS) (path : Bytes) : FS × Option Error :=
  match Stat fs path with
  | .ok info =>
    if info.isDir then (fs, none) else (fs, some (.pathError "mkdir" path .ENOTDIR))
  | .error _ => mkdirChain fs (pathPrefixes path)

/-- The inode number of a node that is a regular file, and 0 otherwise. -/
def inoOf : Node → Nat
  | Node.file ino => ino
  | _ => 0

/-- An inode number above every number in use. -/
def freshIno (fs : FS) : Nat :=
  ((fs.nodes.map (fun e => inoOf e.2)) ++ (fs.data.map (fun e => e.1))).foldr max 0 + 1

/-- `os.WriteFile(name, data, perm)`: opens `name` for writing, creating it
when it is missing, truncates it and stores `data`.  A symbolic link is
followed; the bytes go to the inode the path leads to, so every other name of
that inode shows them too.  Fails, changing nothing, when the path leads to a
directory or cannot be resolved. -/
def WriteFile (fs : FS) (name data : Bytes) : FS × Option Error :=
  match resolve fs true name with
  | .ok (.file _ ino) => ({ fs with data := (ino, data) :: fs.data }, none)
  | .ok (.dir _) => (fs, some (.pathError "open" name .EISDIR))
  | .ok (.link _) => (fs, some (.pathError "open" name .ELOOP))
  | .ok (.absent parent nm) =>
    ({ fs with nodes := (parent ++ [nm], Node.file (freshIno fs)) :: fs.nodes,
               data := (freshIno fs, data) :: fs.data }, none)
  | .error e => (fs, some (.pathError "open" name e))

/-! ## The world the program runs in -/

/-- What the trace records. -/
inductive Event where
  | mkdirAll (path : Bytes)
  | writeFile (path : Bytes) (data : Bytes)
  | generateFile (filenamePrefix : Bytes)
  | saveFiles (pluginName : Bytes) (filenamePrefix : Bytes)
  deriving DecidableEq, Repr

/-- File system, clock reading and the trace of the calls made so far. -/
structure World where
  fs : FS
  now : Clock
  trace : List Event

/-- How a call ends: it returns a value, or it panics. -/
inductive Outcome (α : Type) where
  | ret (val : α) (w : World)
  | panic (msg : Bytes) (w : World)

/-- The world a call leaves behind. -/
def Outcome.world {α : Type} : Outcome α → World
  | .ret _ w => w
  | .panic _ w => w

/-- The value a call returned, if it returned. -/
def Outcome.returned {α : Type} : Outcome α → Option α
  | .ret v _ => some v
  | .panic _ _ => none

/-- `_ = os.MkdirAll(out, 0766)`: the error is dropped. -/
def osMkdirAll (out : Bytes) (w : World) : World :=
  { w with fs := (MkdirAll w.fs out).1, trace := w.trace ++ [Event.mkdirAll out] }

/-- `return os.WriteFile(file, content, 0666)`. -/
def osWriteFile (file content : Bytes) (w : World) : Outcome (Option Error) :=
  .ret (WriteFile w.fs file content).2
    { w with fs := (WriteFile w.fs file content).1,
             trace := w.trace ++ [Event.writeFile file content] }

/-! ## main.go -/

def handlerPlugin : Bytes := str "handler"

def servicePlugin : Bytes := str "service"

/-- `fmt.Sprintf(optErrFormat, name, pluginName)`. -/
def optErrFormat (name pluginName : Bytes) : Bytes :=
  str "--go-gin_opt error, '" ++ name ++ str "' cannot be empty.\n\nUsage example: \n    protoc --proto_path=. --proto_path=./third_party \\\n      --go-gin_out=. --go-gin_opt=paths=source_relative \\\n      --go-gin_opt=plugin=" ++ pluginName ++
    str " --go-gin_opt=moduleName=yourModuleName --go-gin_opt=serverName=yourServerName \\\n      *.proto\n"

/-- `isExists` of main.go. -/
def isExists (fs : FS) (f : Bytes) : Bool :=
  match Stat fs f with
  | .error err => !IsNotExist err
  | .ok _ => true

/-- The destination chosen by `saveFile` and `saveFileSimple`: `out/name`, or
that path with `.gen` and the timestamp when it exists and may not be
covered. -/
def destFile (out filePath : Bytes) (isNeedCovered : Bool) (w : World) : Bytes :=
  let name := (Split filePath).2
  let file := out ++ str "/" ++ name
  if !isNeedCovered && isExists w.fs file then file ++ (str ".gen" ++ formatCompact w.now)
  else file

/-- The three substitutions of `saveFile`. -/
def substitute (moduleName serverName content : Bytes) : Bytes :=
  let content := ReplaceAll content (str "moduleNameExample") moduleName
  let content := ReplaceAll content (str "serverNameExample") serverName
  ReplaceAll content (firstLetterToUpper (str "serverNameExample")) (firstLetterToUpper serverName)

/-- `saveFile` of main.go. -/
def saveFile (moduleName serverName out filePath content : Bytes) (isNeedCovered : Bool)
    (pluginName : Bytes) (w : World) : Outcome (Option Error) :=
  if content.length = 0 then .ret none w
  else if moduleName = [] then .panic (optErrFormat (str "moduleName") pluginName) w
  else if serverName = [] then .panic (optErrFormat (str "serverName") pluginName) w
  else
    let w1 := osMkdirAll out w
    let file := destFile out filePath isNeedCovered w1
    osWriteFile file (substitute moduleName serverName content) w1

/-- `saveFileSimple` of main.go. -/
def saveFileSimple (out filePath content : Bytes) (isNeedCovered : Bool) (w : World) :
    Outcome (Option Error) :=
  if content.length = 0 then .ret none w
  else
    let w1 := osMkdirAll out w
    let file := destFile out filePath isNeedCovered w1
    osWriteFile file content w1

/-- What main.go reads of a `protogen.File`.  `proto` stands for the
descriptor, which only the generators look at. -/
structure File where
  Generate : Bool
  GeneratedFilenamePrefix : Bytes
  proto : Bytes

/-- The `protogen.Plugin` handed to the callback: the batch of files. -/
structure Plugin where
  Files : List File

/-- The generators of the packages `internal/generate/handler` and
`internal/generate/service`, which are not part of the sources at hand: each
returns the logic, router and error-code contents of a file. -/
structure Generators where
  handlerGenerateFiles : File → Bytes × Bytes × Bytes
  serviceGenerateFiles : File → Bytes × Bytes × Bytes

/-- The options of the plugin, as set by `flags.Set`. -/
structure Flags where
  plugin : Bytes
  moduleName : Bytes
  serverName : Bytes
  logicOut : Bytes
  routerOut : Bytes
  ecodeOut : Bytes

/-- `router.GenerateFile(gen, f)`: the router file of `f` is added to the
response; the trace records it. -/
def routerGenerateFile (f : File) (w : World) : World :=
  { w with trace := w.trace ++ [Event.generateFile f.GeneratedFilenamePrefix] }

/-- Entry of one of the two save functions, recorded in the trace. -/
def enterSave (pluginName : Bytes) (f : File) (w : World) : World :=
  { w with trace := w.trace ++ [Event.saveFiles pluginName f.GeneratedFilenamePrefix] }

/-- `saveHandlerAndRouterFiles` of main.go. -/
def saveHandlerAndRouterFiles (g : Generators) (f : File)
    (moduleName serverName logicOut routerOut ecodeOut : Bytes) (w : World) :
    Outcome (Option Error) :=
  let filenamePrefix := f.GeneratedFilenamePrefix
  let contents := g.handlerGenerateFiles f
  match saveFile moduleName serverName logicOut (filenamePrefix ++ str ".go") contents.1 false
      handlerPlugin (enterSave handlerPlugin f w) with
  | .panic msg w1 => .panic msg w1
  | .ret (some err) w1 => .ret (some err) w1
  | .ret none w1 =>
    match saveFile moduleName serverName routerOut (filenamePrefix ++ str "_router.go")
        contents.2.1 false handlerPlugin w1 with
    | .panic msg w2 => .panic msg w2
    | .ret (some err) w2 => .ret (some err) w2
    | .ret none w2 =>
      match saveFileSimple ecodeOut (filenamePrefix ++ str "_http.go") contents.2.2 false w2 with
      | .panic msg w3 => .panic msg w3
      | .ret (some err) w3 => .ret (some err) w3
      | .ret none w3 => .ret none w3

/-- `saveServiceAndRouterFiles` of main.go. -/
def saveServiceAndRouterFiles (g : Generators) (f : File)
    (moduleName serverName logicOut routerOut ecodeOut : Bytes) (w : World) :
    Outcome (Option Error) :=
  let filenamePrefix := f.GeneratedFilenamePrefix
  let contents := g.serviceGenerateFiles f
  match saveFile moduleName serverName logicOut (filenamePrefix ++ str ".go") contents.1 false
      servicePlugin (enterSave servicePlugin f w) with
  | .panic msg w1 => .panic msg w1
  | .ret (some err) w1 => .ret (some err) w1
  | .ret none w1 =>
    match saveFile moduleName serverName routerOut (filenamePrefix ++ str "_router.go")
        contents.2.1 false servicePlugin w1 with
    | .panic msg w2 => .panic msg w2
    | .ret (some err) w2 => .ret (some err) w2
    | .ret none w2 =>
      match saveFileSimple ecodeOut (filenamePrefix ++ str "_rpc.go") contents.2.2 false w2 with
      | .panic msg w3 => .panic msg w3
      | .ret (some err) w3 => .ret (some err) w3
      | .ret none w3 => .ret none w3

/-- The loop `for _, f := range gen.Files` of the callback, followed by its
`return nil`. -/
def processFiles (g : Generators) (handlerFlag serviceFlag : Bool)
    (moduleName serverName logicOut routerOut ecodeOut : Bytes) :
    List File → World → Outcome (Option Error)
  | [], w => .ret none w
  | f :: rest, w =>
    if !f.Generate then
      processFiles g handlerFlag serviceFlag moduleName serverName logicOut routerOut ecodeOut rest w
    else if handlerFlag then
      match saveHandlerAndRouterFiles g f moduleName serverName logicOut routerOut ecodeOut
          (routerGenerateFile f w) with
      | .panic msg w1 => .panic msg w1
      | .ret (some _) w1 => -- skip error, process the next protobuf file
        processFiles g handlerFlag serviceFlag moduleName serverName logicOut routerOut ecodeOut rest w1
      | .ret none w1 =>
        processFiles g handlerFlag serviceFlag moduleName serverName logicOut routerOut ecodeOut rest w1
    else if serviceFlag then
      match saveServiceAndRouterFiles g f moduleName serverName logicOut routerOut ecodeOut
          (routerGenerateFile f w) with
      | .panic msg w1 => .panic msg w1
      | .ret (some _) w1 => -- skip error, process the next protobuf file
        processFiles g handlerFlag serviceFlag moduleName serverName logicOut routerOut ecodeOut rest w1
      | .ret none w1 =>
        processFiles g handlerFlag serviceFlag moduleName serverName logicOut routerOut ecodeOut rest w1
    else
      processFiles g handlerFlag serviceFlag moduleName serverName logicOut routerOut ecodeOut rest
        (routerGenerateFile f w)

/-- An output directory option, or its default when it is empty. -/
def orDefault (dir dflt : Bytes) : Bytes := if dir = [] then dflt else dir

/-- The callback that `main` hands to `options.Run`. -/
def run (g : Generators) (flags : Flags) (gen : Plugin) (w : World) : Outcome (Option Error) :=
  let pluginName := ReplaceAll flags.plugin (str " ") (str "")
  if pluginName = handlerPlugin then
    processFiles g true false flags.moduleName flags.serverName
      (orDefault flags.logicOut (str "internal/handler"))
      (orDefault flags.routerOut (str "internal/routers"))
      (orDefault flags.ecodeOut (str "internal/ecode")) gen.Files w
  else if pluginName = servicePlugin then
    processFiles g false true flags.moduleName flags.serverName
      (orDefault flags.logicOut (str "internal/service"))
      (orDefault flags.routerOut (str "internal/routers"))
      (orDefault flags.ecodeOut (str "internal/ecode")) gen.Files w
  else if pluginName = str "" then
    processFiles g false false flags.moduleName flags.serverName
      flags.logicOut flags.routerOut flags.ecodeOut gen.Files w
  else .ret (some (Error.unknownPlugin flags.plugin)) w

/-- The events a call added to the trace of the world it started in. -/
def newEvents (w w1 : World) : List Event := w1.trace.drop w.trace.length

/-- The `os.WriteFile` calls among some events: path and data, in order. -/
def writesOf (es : List Event) : List (Bytes × Bytes) :=
  es.filterMap (fun e => match e with
    | Event.writeFile p d => some (p, d)
    | _ => none)

/-- The files handed to `router.GenerateFile` among some events, in order. -/
def generatedOf (es : List Event) : List Bytes :=
  es.filterMap (fun e => match e with
    | Event.generateFile p => some p
    | _ => none)

/-- The files for which a save function was entered among some events. -/
def savedOf (es : List Event) : List Bytes :=
  es.filterMap (fun e => match e with
    | Event.saveFiles _ p => some p
    | _ => none)

/-- What the plugin hands back to the compiler: the error of the callback and
the router files generated.  After a panic the process dies and hands back
nothing; the panic message is kept here, with no file. -/
def response (w : World) (o : Outcome (Option Error)) : Option Error × Option Bytes × List Bytes :=
  match o with
  | .ret err w1 => (err, none, generatedOf (newEvents w w1))
  | .panic msg _ => (none, some msg, [])

/-! ## dao.go -/

/-- The `map[string]string` returned by `sql2code.Generate`. -/
abbrev Codes := List (Bytes × Bytes)

/-- What `runGenDaoCommand` sets on the replacer before `SaveFiles`. -/
structure ReplacerSettings where
  subDirs : List Bytes
  ignoreDirs : List Bytes
  ignoreFiles : List Bytes
  moduleName : Bytes
  codes : Codes
  outPath : Bytes
  subTplName : Bytes
  deriving DecidableEq, Repr

/-- The collaborators of the dao command, which are not part of the sources
at hand: `getNamesFromOutDir` (its first result), `sql2code.Generate` as a
function of the table name, and the replacer `Replacers[TplNameSponge]`, if
there is one, as the result of `SaveFiles` followed by `GetOutputDir`. -/
structure DaoEnv where
  getNamesFromOutDir : Bytes → Bytes
  sql2codeGenerate : Bytes → Except Error Codes
  replacer : Option (ReplacerSettings → Except Error Bytes)

/-- What the trace of the dao command records. -/
inductive DaoEvent where
  | generate (tableName : Bytes)
  | runGenDaoCommand (tableName : Bytes) (isIncludeInitDB : Bool) (outPath : Bytes)
  deriving DecidableEq, Repr

/-- The variables of `DaoCommand` the loop updates, and the trace. -/
structure DaoState where
  isIncludeInitDB : Bool
  outPath : Bytes
  trace : List DaoEvent
  deriving DecidableEq, Repr

/-- `strings.Split(s, ",")`. -/
def splitComma : Bytes → List Bytes
  | [] => [[]]
  | c :: cs =>
    match splitComma cs with
    | [] => [[]]
    | hd :: tl => if c = 44 then [] :: hd :: tl else (c :: hd) :: tl

/-- The settings `runGenDaoCommand` puts on the replacer. -/
def daoSettings (moduleName : Bytes) (isIncludeInitDB : Bool) (codes : Codes) (outPath : Bytes) :
    ReplacerSettings :=
  { subDirs := [str "internal/model", str "internal/cache", str "internal/dao"]
    ignoreDirs := []
    ignoreFiles :=
      if isIncludeInitDB then
        [str "doc.go", str "cacheNameExample.go", str "cacheNameExample_test.go"]
      else
        [str "init.go", str "init_test.go",
         str "doc.go", str "cacheNameExample.go", str "cacheNameExample_test.go"]
    moduleName := moduleName
    codes := codes
    outPath := outPath
    subTplName := str "dao" }

/-- `runGenDaoCommand` of dao.go. -/
def runGenDaoCommand (env : DaoEnv) (moduleName : Bytes) (isIncludeInitDB : Bool) (codes : Codes)
    (outPath : Bytes) : Except Error Bytes :=
  match env.replacer with
  | none => .error Error.rIsNil
  | some saveFiles =>
    match saveFiles (daoSettings moduleName isIncludeInitDB codes outPath) with
    | .error err => .error err
    | .ok dir => .ok dir

/-- The loop `for count, tableName := range tableNames` of `RunE`, followed
by its `return nil`. -/
def daoLoop (env : DaoEnv) (moduleName : Bytes) : Nat → List Bytes → DaoState → Option Error × DaoState
  | _, [], st => (none, st)
  | count, tableName :: rest, st =>
    if tableName = [] then daoLoop env moduleName (count + 1) rest st
    else
      match env.sql2codeGenerate tableName with
      | .error err => (some err, { st with trace := st.trace ++ [DaoEvent.generate tableName] })
      | .ok codes =>
        -- control to generate the initialization db code only once
        let flag := if count = 0 ∧ st.isIncludeInitDB = true then true else false
        let trace := st.trace ++
          [DaoEvent.generate tableName, DaoEvent.runGenDaoCommand tableName flag st.outPath]
        match runGenDaoCommand env moduleName flag codes st.outPath with
        | .error err => (some err, { isIncludeInitDB := flag, outPath := [], trace := trace })
        | .ok dir =>
          daoLoop env moduleName (count + 1) rest
            { isIncludeInitDB := flag, outPath := dir, trace := trace }

/-- The flags of the dao command the loop depends on. -/
structure DaoFlags where
  moduleName : Bytes
  outPath : Bytes
  dbTables : Bytes
  isIncludeInitDB : Bool

/-- `RunE` of `DaoCommand`. -/
def DaoCommandRunE (env : DaoEnv) (parentName : Bytes) (flags : DaoFlags) : Option Error × DaoState :=
  let st : DaoState := { isIncludeInitDB := flags.isIncludeInitDB, outPath := flags.outPath, trace := [] }
  let mdName := env.getNamesFromOutDir flags.outPath
  if mdName ≠ [] then daoLoop env mdName 0 (splitComma flags.dbTables) st
  else if flags.moduleName = [] then (some (Error.requiredModuleName parentName), st)
  else daoLoop env flags.moduleName 0 (splitComma flags.dbTables) st

/-- The tables handed to `sql2code.Generate`, in order. -/
def generatedTables (tr : List DaoEvent) : List Bytes :=
  tr.filterMap (fun e => match e with
    | DaoEvent.generate t => some t
    | _ => none)

/-- The calls of `runGenDaoCommand`: table and `isIncludeInitDB`, in order. -/
def runGenCalls (tr : List DaoEvent) : List (Bytes × Bool) :=
  tr.filterMap (fun e => match e with
    | DaoEvent.runGenDaoCommand t b _ => some (t, b)
    | _ => none)

/-! ## Example inputs -/

/-- Noon of 1 January 2024. -/
def noon2024 : Clock :=
  ⟨2024, 1, 1, 12, 0, 0, by decide, by decide, by decide, by decide, by decide, by decide⟩

/-- The working directory `/work` with the directory `out`. -/
def fsEmptyOut : FS :=
  { nodes := [([str "work"], Node.dir), ([str "work", str "out"], Node.dir)]
    data := []
    denied := []
    cwd := [str "work"] }

/-- As `fsEmptyOut`, with `out/x.go` holding the bytes `old`. -/
def fsWithFile : FS :=
  { nodes := [([str "work"], Node.dir), ([str "work", str "out"], Node.dir),
      ([str "work", str "out", str "x.go"], Node.file 1)]
    data := [(1, str "old")]
    denied := []
    cwd := [str "work"] }

/-- As `fsWithFile`, with a sibling stamped with noon of 1 January 2024 that
holds the bytes `earlier`. -/
def fsWithSibling : FS :=
  { nodes := [([str "work"], Node.dir), ([str "work", str "out"], Node.dir),
      ([str "work", str "out", str "x.go"], Node.file 1),
      ([str "work", str "out", str "x.go.gen20240101T120000"], Node.file 2)]
    data := [(1, str "old"), (2, str "earlier")]
    denied := []
    cwd := [str "work"] }

/-- As `fsWithFile`, with the stamped sibling a symbolic link to `x.go`. -/
def fsLinkedSibling : FS :=
  { nodes := [([str "work"], Node.dir), ([str "work", str "out"], Node.dir),
      ([str "work", str "out", str "x.go"], Node.file 1),
      ([str "work", str "out", str "x.go.gen20240101T120000"], Node.symlink (str "x.go"))]
    data := [(1, str "old")]
    denied := []
    cwd := [str "work"] }

/-- As `fsWithFile`, with the stamped sibling a directory. -/
def fsBlockedSibling : FS :=
  { nodes := [([str "work"], Node.dir), ([str "work", str "out"], Node.dir),
      ([str "work", str "out", str "x.go"], Node.file 1),
      ([str "work", str "out", str "x.go.gen20240101T120000"], Node.dir)]
    data := [(1, str "old")]
    denied := []
    cwd := [str "work"] }

/-- The working directory `/work` in which `out` is a regular file. -/
def fsOutIsFile : FS :=
  { nodes := [([str "work"], Node.dir), ([str "work", str "out"], Node.file 1)]
    data := [(1, str "not a directory")]
    denied := []
    cwd := [str "work"] }

/-! ## Placeholder tokens -/

/-- The three placeholder tokens `saveFile` substitutes. -/
def placeholders : List Bytes :=
  [str "moduleNameExample", str "serverNameExample", firstLetterToUpper (str "serverNameExample")]

/-- The value `v` cannot take part in an occurrence of the token `tok`: it
neither contains the token nor lies inside it, no beginning of `v` ends the
token and no ending of `v` begins it. -/
def OverlapFree (v tok : Bytes) : Prop :=
  ¬ v <:+: tok ∧ ¬ tok <:+: v ∧
  (∀ y ∈ v.inits, y ≠ [] → ¬ y <:+ tok) ∧
  (∀ y ∈ v.tails, y ≠ [] → ¬ y <+: tok)

instance (v tok : Bytes) : Decidable (OverlapFree v tok) := by
  unfold OverlapFree; infer_instance

/-! ## Example batches -/

/-- Generators for the examples: the logic content is the descriptor, the
router and error-code contents are fixed. -/
def exampleGenerators : Generators :=
  ⟨fun f => (f.proto, str "router moduleNameExample", str "ecode"),
   fun f => (f.proto, str "router moduleNameExample", str "ecode")⟩

/-- Two files to generate, `b` and then `a`. -/
def exampleBatch : Plugin :=
  ⟨[⟨true, str "b", str "logic of b"⟩, ⟨true, str "a", str "logic of a"⟩]⟩

/-- Options of a handler run for module `m`, server `s`, with the default
output directories. -/
def handlerFlags (plugin : Bytes) : Flags :=
  ⟨plugin, str "m", str "s", str "", str "", str ""⟩

/-! ## Steps of the batch loop -/

/-- The steps of the batch loop among some events: the calls of
`router.GenerateFile` and the entries of the save functions, in order. -/
def stepsOf (es : List Event) : List Event :=
  es.filter (fun e => match e with
    | Event.generateFile _ => true
    | Event.saveFiles _ _ => true
    | _ => false)

/-- A tree in which `internal/handler/b.go` holds a file and the sibling path
stamped with noon of 1 January 2024 is a directory, so that the write for `b`
fails. -/
def fsBlockedB : FS :=
  { nodes := [([str "work"], Node.dir), ([str "work", str "internal"], Node.dir),
      ([str "work", str "internal", str "handler"], Node.dir),
      ([str "work", str "internal", str "handler", str "b.go"], Node.file 1),
      ([str "work", str "internal", str "handler", str "b.go.gen20240101T120000"], Node.dir)]
    data := [(1, str "old")]
    denied := []
    cwd := [str "work"] }

/-- A call extends the trace by events that are no steps of the batch loop. -/
def Quiet (w w1 : World) : Prop :=
  ∃ es, w1.trace = w.trace ++ es ∧ stepsOf es = []

/-- The steps a batch is expected to take under a plugin: for each file marked
`Generate`, in order, its router file and then its save. -/
def expectedSteps (pluginName : Bytes) (files : List File) : List Event :=
  (files.filter (fun f => f.Generate)).flatMap
    (fun f => [Event.generateFile f.GeneratedFilenamePrefix,
               Event.saveFiles pluginName f.GeneratedFilenamePrefix])

/-! ## Example collaborators of the dao command -/

/-- Collaborators of the dao command for the examples: every table is
generated and every save succeeds. -/
def daoEnvOk : DaoEnv :=
  { getNamesFromOutDir := fun _ => []
    sql2codeGenerate := fun t => .ok [(str "tableName", t)]
    replacer := some (fun s => .ok (if s.outPath = [] then str "dao_out" else s.outPath)) }

/-- As `daoEnvOk`, but `sql2code.Generate` fails for the table `t1`. -/
def daoEnvFailT1 : DaoEnv :=
  { getNamesFromOutDir := fun _ => []
    sql2codeGenerate := fun t =>
      if t = str "t1" then .error (Error.external (str "table t1 not found"))
      else .ok [(str "tableName", t)]
    replacer := some (fun s => .ok (if s.outPath = [] then str "dao_out" else s.outPath)) }

/-- The non-empty names of a table list, in order. -/
def tableNamesOf (l : List Bytes) : List Bytes := l.filter (fun t => t ≠ [])

/-- Generation for the table `t` fails with `e` under module name `m`:
`sql2code.Generate` returns `e`, or it succeeds and `runGenDaoCommand` returns
`e`. -/
def FailsAt (env : DaoEnv) (m t : Bytes) (e : Error) : Prop :=
  env.sql2codeGenerate t = .error e ∨
  ∃ codes flag out, env.sql2codeGenerate t = .ok codes ∧
    runGenDaoCommand env m flag codes out = .error e

/-! ## The substitution in the words of the specification

The specification side of the refinement: three passes, each replacing every
occurrence of one token, applied once each and in order.  These definitions
follow the wording of the specification, not the source. -/

/-- Every occurrence of `tok` replaced by `value`, reading from the left: where
the text begins with `tok`, `value` stands for it and reading resumes after
the occurrence; elsewhere the byte is kept.  `fuel` bounds the number of
steps. -/
def specReplaceEveryFuel (tok value : Bytes) : Nat → Bytes → Bytes
  | 0, s => s
  | _ + 1, [] => []
  | fuel + 1, c :: cs =>
    if tok <+: c :: cs then
      value ++ specReplaceEveryFuel tok value fuel ((c :: cs).drop tok.length)
    else c :: specReplaceEveryFuel tok value fuel cs

/-- Every occurrence of `tok` replaced by `value`. -/
def specReplaceEvery (tok value s : Bytes) : Bytes :=
  specReplaceEveryFuel tok value s.length s

/-- A name with its first letter upper-cased: an ASCII lower-case letter
becomes the upper-case letter, a two-byte Latin-1 lower-case letter (`à` to
`þ`, without `÷`) becomes its upper-case form, and any other first character
is kept (exact for characters that have no upper case). -/
def specUpperFirstLetter : Bytes → Bytes
  | [] => []
  | [b] => if 97 ≤ b ∧ b ≤ 122 then [b - 32] else [b]
  | b :: b2 :: rest =>
    if 97 ≤ b ∧ b ≤ 122 then (b - 32) :: b2 :: rest
    else if b = 195 ∧ 160 ≤ b2 ∧ b2 ≤ 190 ∧ b2 ≠ 183 then 195 :: (b2 - 32) :: rest
    else b :: b2 :: rest

/-- The three passes of the specification, once each and in this order. -/
def specThreePasses (moduleName serverName content : Bytes) : Bytes :=
  specReplaceEvery (str "ServerNameExample") (specUpperFirstLetter serverName)
    (specReplaceEvery (str "serverNameExample") serverName
      (specReplaceEvery (str "moduleNameExample") moduleName content))

/-- The server name `日本` in UTF-8. -/
def nihon : Bytes := [230, 151, 165, 230, 156, 172]

/-- The server name `élan` in UTF-8. -/
def elan : Bytes := [195, 169, 108, 97, 110]

/-! ## Relations between file-system states -/

instance {ε α : Type} [DecidableEq ε] [DecidableEq α] : DecidableEq (Except ε α) :=
  fun a b =>
    match a, b with
    | .ok x, .ok y =>
      if h : x = y then isTrue (by rw [h]) else isFalse (by intro e; cases e; exact h rfl)
    | .error x, .error y =>
      if h : x = y then isTrue (by rw [h]) else isFalse (by intro e; cases e; exact h rfl)
    | .ok _, .error _ => isFalse (by intro e; cases e)
    | .error _, .ok _ => isFalse (by intro e; cases e)

/-- The tree `fs1` has every binding of `fs`, the same refusals and the same
working directory. -/
def Extends (fs fs1 : FS) : Prop :=
  fs1.denied = fs.denied ∧ fs1.cwd = fs.cwd ∧
  ∀ loc n, fs.nodes.lookup loc = some n → fs1.nodes.lookup loc = some n

/-- A result of path resolution that is something found. -/
def Found.isPresent : Found → Bool
  | .absent _ _ => false
  | _ => true

/-- The inode of the regular file a path leads to, if it leads to one.  Two
paths with the same inode are names of one file: a hard link, a symbolic link
or another spelling of the path. -/
def FS.inodeOf (fs : FS) (p : Bytes) : Option Nat :=
  match resolve fs true p with
  | .ok (.file _ ino) => some ino
  | _ => none

/-! # Facts and claims -/

/-! ## Facts about the file system -/


theorem Extends.same (fs : FS) : Extends fs fs := ⟨rfl, rfl, fun _ _ h => h⟩

theorem Extends.chain {a b c : FS} (h1 : Extends a b) (h2 : Extends b c) : Extends a c :=
  ⟨h2.1.trans h1.1, h2.2.1.trans h1.2.1, fun loc n h => h2.2.2 loc n (h1.2.2 loc n h)⟩

theorem lookup_cons_ne {β : Type} (l : List (Loc × β)) (p k : Loc) (n : β) (h : k ≠ p) :
    ((p, n) :: l).lookup k = l.lookup k := by
  have hb : (k == p) = false := by simpa using h
  simp [List.lookup_cons, hb]

theorem lookup_cons_self {β : Type} (l : List (Loc × β)) (p : Loc) (n : β) :
    ((p, n) :: l).lookup p = some n := by
  simp [List.lookup_cons]

/-- Binding a place that was not bound extends the tree. -/
theorem Extends.bound (fs : FS) (p : Loc) (n : Node) (d : List (Nat × Bytes))
    (h : fs.nodes.lookup p = none) :
    Extends fs { fs with nodes := (p, n) :: fs.nodes, data := d } := by
  refine ⟨rfl, rfl, fun loc m hl => ?_⟩
  have : loc ≠ p := by
    intro e; subst e; rw [h] at hl; cases hl
  show ((p, n) :: fs.nodes).lookup loc = some m
  rw [lookup_cons_ne _ _ _ _ this]; exact hl

/-- What a path leads to stays what it is when the tree is extended. -/
theorem walk_extends {fs fs1 : FS} (h : Extends fs fs1) (follow : Bool) :
    ∀ (fuel : Nat) (cur : Loc) (comps : List Bytes) (r : Found),
      walk fs follow fuel cur comps = .ok r → r.isPresent = true →
      walk fs1 follow fuel cur comps = .ok r := by
  intro fuel
  induction fuel with
  | zero => intro cur comps r hw; simp [walk] at hw
  | succ fuel ih =>
    intro cur comps r hw hr
    cases comps with
    | nil => simpa [walk] using hw
    | cons c rest =>
      unfold walk at hw ⊢
      by_cases h1 : c = [] ∨ c = str "."
      · simp only [h1, if_true] at hw ⊢
        exact ih _ _ _ hw hr
      simp only [h1, if_false] at hw ⊢
      by_cases h2 : c = str ".."
      · simp only [h2, if_true] at hw ⊢
        exact ih _ _ _ hw hr
      simp only [h2, if_false] at hw ⊢
      rw [h.1]
      by_cases h3 : cur ++ [c] ∈ fs.denied
      · simp [h3] at hw
      simp only [h3, if_false] at hw ⊢
      cases hl : fs.nodes.lookup (cur ++ [c]) with
      | none =>
        rw [hl] at hw
        simp only at hw
        split_ifs at hw
        · cases hw; simp [Found.isPresent] at hr
      | some n =>
        rw [hl] at hw
        rw [h.2.2 _ _ hl]
        cases n with
        | dir => exact ih _ _ _ hw hr
        | file ino => exact hw
        | symlink target =>
          simp only at hw ⊢
          split_ifs at hw ⊢ <;> first | exact hw | exact ih _ _ _ hw hr

/-- A name reported missing is not bound. -/
theorem walk_absent (fs : FS) (follow : Bool) :
    ∀ (fuel : Nat) (cur : Loc) (comps : List Bytes) (par : Loc) (nm : Bytes),
      walk fs follow fuel cur comps = .ok (.absent par nm) →
      fs.nodes.lookup (par ++ [nm]) = none := by
  intro fuel
  induction fuel with
  | zero => intro cur comps par nm hw; simp [walk] at hw
  | succ fuel ih =>
    intro cur comps par nm hw
    cases comps with
    | nil => simp [walk] at hw
    | cons c rest =>
      unfold walk at hw
      by_cases h1 : c = [] ∨ c = str "."
      · simp only [h1, if_true] at hw
        exact ih _ _ _ _ hw
      simp only [h1, if_false] at hw
      by_cases h2 : c = str ".."
      · simp only [h2, if_true] at hw
        exact ih _ _ _ _ hw
      simp only [h2, if_false] at hw
      by_cases h3 : cur ++ [c] ∈ fs.denied
      · simp [h3] at hw
      simp only [h3, if_false] at hw
      cases hl : fs.nodes.lookup (cur ++ [c]) with
      | none =>
        rw [hl] at hw
        simp only at hw
        split_ifs at hw <;> cases hw
        exact hl
      | some n =>
        rw [hl] at hw
        cases n with
        | dir => exact ih _ _ _ _ hw
        | file ino => simp only at hw; split_ifs at hw <;> cases hw
        | symlink target =>
          simp only at hw
          split_ifs at hw <;> first | exact ih _ _ _ _ hw | cases hw

/-- A regular file that is found is bound where it is found. -/
theorem walk_file (fs : FS) (follow : Bool) :
    ∀ (fuel : Nat) (cur : Loc) (comps : List Bytes) (loc : Loc) (ino : Nat),
      walk fs follow fuel cur comps = .ok (.file loc ino) →
      fs.nodes.lookup loc = some (Node.file ino) := by
  intro fuel
  induction fuel with
  | zero => intro cur comps loc ino hw; simp [walk] at hw
  | succ fuel ih =>
    intro cur comps loc ino hw
    cases comps with
    | nil => simp [walk] at hw
    | cons c rest =>
      unfold walk at hw
      by_cases h1 : c = [] ∨ c = str "."
      · simp only [h1, if_true] at hw
        exact ih _ _ _ _ hw
      simp only [h1, if_false] at hw
      by_cases h2 : c = str ".."
      · simp only [h2, if_true] at hw
        exact ih _ _ _ _ hw
      simp only [h2, if_false] at hw
      by_cases h3 : cur ++ [c] ∈ fs.denied
      · simp [h3] at hw
      simp only [h3, if_false] at hw
      cases hl : fs.nodes.lookup (cur ++ [c]) with
      | none =>
        rw [hl] at hw
        simp only at hw
        split_ifs at hw <;> cases hw
      | some n =>
        rw [hl] at hw
        cases n with
        | dir => exact ih _ _ _ _ hw
        | file i =>
          simp only at hw
          split_ifs at hw <;> cases hw
          exact hl
        | symlink target =>
          simp only at hw
          split_ifs at hw <;> first | exact ih _ _ _ _ hw | cases hw

/-- After a missing name is bound to a regular file, the path leads to that
file. -/
theorem walk_created (fs fs1 : FS) (par : Loc) (nm : Bytes) (ino : Nat)
    (hd : fs1.denied = fs.denied)
    (hn : fs1.nodes = (par ++ [nm], Node.file ino) :: fs.nodes)
    (hnone : fs.nodes.lookup (par ++ [nm]) = none) :
    ∀ (fuel : Nat) (cur : Loc) (comps : List Bytes),
      walk fs true fuel cur comps = .ok (.absent par nm) →
      walk fs1 true fuel cur comps = .ok (.file (par ++ [nm]) ino) := by
  have hlook : ∀ k n, fs.nodes.lookup k = some n → fs1.nodes.lookup k = some n := by
    intro k n hk
    have : k ≠ par ++ [nm] := by
      intro e; rw [e, hnone] at hk; cases hk
    rw [hn, lookup_cons_ne _ _ _ _ this]; exact hk
  intro fuel
  induction fuel with
  | zero => intro cur comps hw; simp [walk] at hw
  | succ fuel ih =>
    intro cur comps hw
    cases comps with
    | nil => simp [walk] at hw
    | cons c rest =>
      unfold walk at hw ⊢
      by_cases h1 : c = [] ∨ c = str "."
      · simp only [h1, if_true] at hw ⊢
        exact ih _ _ hw
      simp only [h1, if_false] at hw ⊢
      by_cases h2 : c = str ".."
      · simp only [h2, if_true] at hw ⊢
        exact ih _ _ hw
      simp only [h2, if_false] at hw ⊢
      rw [hd]
      by_cases h3 : cur ++ [c] ∈ fs.denied
      · simp [h3] at hw
      simp only [h3, if_false] at hw ⊢
      cases hl : fs.nodes.lookup (cur ++ [c]) with
      | none =>
        rw [hl] at hw
        simp only at hw
        split_ifs at hw with hrest <;> cases hw
        rw [hn, lookup_cons_self]
        simp [hrest]
      | some n =>
        rw [hl] at hw
        rw [hlook _ _ hl]
        cases n with
        | dir => exact ih _ _ hw
        | file i => simp only at hw; split_ifs at hw <;> cases hw
        | symlink target =>
          simp only at hw ⊢
          split_ifs at hw ⊢ <;> first | exact ih _ _ hw | cases hw

theorem resolve_extends {fs fs1 : FS} (h : Extends fs fs1) (follow : Bool) (p : Bytes)
    (r : Found) (hr : resolve fs follow p = .ok r) (hp : r.isPresent = true) :
    resolve fs1 follow p = .ok r := by
  unfold resolve at hr ⊢
  by_cases h0 : p = []
  · simp [h0] at hr
  · simp only [h0, if_false] at hr ⊢
    rw [h.2.1]
    exact walk_extends h follow _ _ _ r hr hp

theorem resolve_absent (fs : FS) (follow : Bool) (p : Bytes) (par : Loc) (nm : Bytes)
    (hr : resolve fs follow p = .ok (.absent par nm)) :
    fs.nodes.lookup (par ++ [nm]) = none := by
  unfold resolve at hr
  by_cases h0 : p = []
  · simp [h0] at hr
  · simp only [h0, if_false] at hr
    exact walk_absent fs follow _ _ _ _ _ hr

theorem resolve_file (fs : FS) (follow : Bool) (p : Bytes) (loc : Loc) (ino : Nat)
    (hr : resolve fs follow p = .ok (.file loc ino)) :
    fs.nodes.lookup loc = some (Node.file ino) := by
  unfold resolve at hr
  by_cases h0 : p = []
  · simp [h0] at hr
  · simp only [h0, if_false] at hr
    exact walk_file fs follow _ _ _ _ _ hr

theorem resolve_created (fs fs1 : FS) (p : Bytes) (par : Loc) (nm : Bytes) (ino : Nat)
    (hd : fs1.denied = fs.denied) (hc : fs1.cwd = fs.cwd)
    (hn : fs1.nodes = (par ++ [nm], Node.file ino) :: fs.nodes)
    (hr : resolve fs true p = .ok (.absent par nm)) :
    resolve fs1 true p = .ok (.file (par ++ [nm]) ino) := by
  have hnone := resolve_absent fs true p par nm hr
  unfold resolve at hr ⊢
  by_cases h0 : p = []
  · simp [h0] at hr
  · simp only [h0, if_false] at hr ⊢
    rw [hc]
    exact walk_created fs fs1 par nm ino hd hn hnone _ _ _ hr

/-- `isExists` answers no exactly when `os.Stat` fails with "does not exist". -/
theorem isExists_eq_false (fs : FS) (p : Bytes) :
    isExists fs p = false ↔ Stat fs p = .error .ENOENT := by
  unfold isExists
  cases h : Stat fs p with
  | ok i => simp
  | error e => cases e <;> simp [IsNotExist]

/-- A path that leads to a regular file or a directory is not reported
missing. -/
theorem Stat_of_file (fs : FS) (p : Bytes) (loc : Loc) (ino : Nat)
    (h : resolve fs true p = .ok (.file loc ino)) : Stat fs p = .ok ⟨false⟩ := by
  simp [Stat, h]

theorem Stat_of_dir (fs : FS) (p : Bytes) (loc : Loc)
    (h : resolve fs true p = .ok (.dir loc)) : Stat fs p = .ok ⟨true⟩ := by
  simp [Stat, h]

theorem Stat_of_absent (fs : FS) (p : Bytes) (par : Loc) (nm : Bytes)
    (h : resolve fs true p = .ok (.absent par nm)) : Stat fs p = .error .ENOENT := by
  simp [Stat, h]

/-- When `os.Stat` reports "does not exist" the path leads to no regular
file. -/
theorem Stat_enoent_not_file (fs : FS) (p : Bytes) (h : Stat fs p = .error .ENOENT)
    (loc : Loc) (ino : Nat) : resolve fs true p ≠ .ok (.file loc ino) := by
  intro hr
  rw [Stat_of_file fs p loc ino hr] at h
  cases h

theorem Mkdir_extends (fs : FS) (p : Bytes) :
    Extends fs (Mkdir fs p).1 ∧ (Mkdir fs p).1.data = fs.data := by
  unfold Mkdir
  cases hr : resolve fs false p with
  | error e => exact ⟨Extends.same fs, rfl⟩
  | ok r =>
    cases r with
    | absent par nm =>
      exact ⟨Extends.bound fs _ _ fs.data (resolve_absent fs false p par nm hr), rfl⟩
    | file loc ino => exact ⟨Extends.same fs, rfl⟩
    | dir loc => exact ⟨Extends.same fs, rfl⟩
    | link loc => exact ⟨Extends.same fs, rfl⟩

theorem mkdirChain_extends (l : List Bytes) (fs : FS) :
    Extends fs (mkdirChain fs l).1 ∧ (mkdirChain fs l).1.data = fs.data := by
  induction l generalizing fs with
  | nil => exact ⟨Extends.same fs, rfl⟩
  | cons q rest ih =>
    unfold mkdirChain
    cases hs : Stat fs q with
    | ok info =>
      simp only
      split_ifs
      · exact ih fs
      · exact ⟨Extends.same fs, rfl⟩
    | error e =>
      simp only
      split_ifs
      · have hm := Mkdir_extends fs q
        cases hmk : Mkdir fs q with
        | mk fs1 r =>
          rw [hmk] at hm
          cases r with
          | none =>
            simp only
            exact ⟨hm.1.chain (ih fs1).1, (ih fs1).2.trans hm.2⟩
          | some err => exact hm
      · exact ⟨Extends.same fs, rfl⟩

/-- Directory creation only adds bindings and leaves the bytes of every inode
as they are. -/
theorem MkdirAll_extends (fs : FS) (path : Bytes) :
    Extends fs (MkdirAll fs path).1 ∧ (MkdirAll fs path).1.data = fs.data := by
  unfold MkdirAll
  cases hs : Stat fs path with
  | ok info =>
    simp only
    split_ifs <;> exact ⟨Extends.same fs, rfl⟩
  | error e => exact mkdirChain_extends _ fs

/-- Nothing is made when the path is a directory already. -/
theorem MkdirAll_of_dir (fs : FS) (path : Bytes) (h : Stat fs path = .ok ⟨true⟩) :
    (MkdirAll fs path).1 = fs := by
  simp [MkdirAll, h]

theorem readFile_of_resolve (fs : FS) (p : Bytes) (loc : Loc) (ino : Nat)
    (h : resolve fs true p = .ok (.file loc ino)) :
    fs.readFile p = some (fs.content ino) := by
  simp [FS.readFile, h]

theorem readFile_eq_some (fs : FS) (p b : Bytes) (h : fs.readFile p = some b) :
    ∃ loc ino, resolve fs true p = .ok (.file loc ino) ∧ fs.content ino = b := by
  unfold FS.readFile at h
  cases hr : resolve fs true p with
  | error e => rw [hr] at h; cases h
  | ok r =>
    rw [hr] at h
    cases r with
    | file loc ino => exact ⟨loc, ino, rfl, by simpa using h⟩
    | dir loc => cases h
    | link loc => cases h
    | absent par nm => cases h

theorem mem_of_lookup {β : Type} (l : List (Loc × β)) (k : Loc) (n : β)
    (h : l.lookup k = some n) : (k, n) ∈ l := by
  induction l with
  | nil => simp at h
  | cons e t ih =>
    obtain ⟨k1, n1⟩ := e
    by_cases hk : k = k1
    · subst hk
      rw [lookup_cons_self] at h
      cases h
      exact List.mem_cons_self _ _
    · rw [lookup_cons_ne _ _ _ _ hk] at h
      exact List.mem_cons_of_mem _ (ih h)

/-- An inode number in use lies below the fresh one. -/
theorem lt_freshIno (fs : FS) (loc : Loc) (ino : Nat)
    (h : fs.nodes.lookup loc = some (Node.file ino)) : ino < freshIno fs := by
  have hmem : ino ∈ (fs.nodes.map (fun e => inoOf e.2)) ++ (fs.data.map (fun e => e.1)) := by
    apply List.mem_append_left
    rw [List.mem_map]
    have := mem_of_lookup _ _ _ h
    exact ⟨(loc, Node.file ino), this, rfl⟩
  have hle : ∀ (l : List Nat) (x : Nat), x ∈ l → x ≤ l.foldr max 0 := by
    intro l
    induction l with
    | nil => intro x hx; cases hx
    | cons a t ih =>
      intro x hx
      simp only [List.foldr_cons]
      rcases List.mem_cons.1 hx with e | e
      · subst e; exact le_max_left _ _
      · exact (ih x e).trans (le_max_right _ _)
  unfold freshIno
  exact Nat.lt_succ_of_le (hle _ _ hmem)

/-- The outcome of a write: an error and no change; or the path led to a
regular file, whose inode now has the data; or the path led to a missing name,
which is now bound to a fresh inode with the data. -/
theorem WriteFile_cases (fs : FS) (name data : Bytes) :
    ((WriteFile fs name data).1 = fs ∧ (WriteFile fs name data).2 ≠ none) ∨
    (∃ loc ino, resolve fs true name = .ok (.file loc ino) ∧
      (WriteFile fs name data).1 = { fs with data := (ino, data) :: fs.data } ∧
      (WriteFile fs name data).2 = none) ∨
    (∃ par nm, resolve fs true name = .ok (.absent par nm) ∧
      (WriteFile fs name data).1 =
        { fs with nodes := (par ++ [nm], Node.file (freshIno fs)) :: fs.nodes,
                  data := (freshIno fs, data) :: fs.data } ∧
      (WriteFile fs name data).2 = none) := by
  unfold WriteFile
  cases hr : resolve fs true name with
  | error e => left; simp
  | ok r =>
    cases r with
    | file loc ino => right; left; exact ⟨loc, ino, rfl, rfl, rfl⟩
    | dir loc => left; simp
    | link loc => left; simp
    | absent par nm => right; right; exact ⟨par, nm, rfl, rfl, rfl⟩

theorem content_cons_ne (fs : FS) (n : List (Loc × Node)) (i j : Nat) (d : Bytes) (h : i ≠ j) :
    ({ fs with nodes := n, data := (j, d) :: fs.data } : FS).content i = fs.content i := by
  have hb : (i == j) = false := by simpa using h
  simp [FS.content, List.lookup_cons, hb]

theorem content_cons_self (fs : FS) (n : List (Loc × Node)) (j : Nat) (d : Bytes) :
    ({ fs with nodes := n, data := (j, d) :: fs.data } : FS).content j = d := by
  simp [FS.content, List.lookup_cons]

/-- A write leaves every regular file as it is, except the one the path of
the write leads to. -/
theorem WriteFile_frame (fs : FS) (name data k : Bytes) (loc : Loc) (ino : Nat)
    (hk : resolve fs true k = .ok (.file loc ino))
    (hne : ∀ loc2, resolve fs true name ≠ .ok (.file loc2 ino)) :
    (WriteFile fs name data).1.readFile k = fs.readFile k := by
  rw [readFile_of_resolve fs k loc ino hk]
  rcases WriteFile_cases fs name data with h | ⟨l2, j, hr, hfs, _⟩ | ⟨par, nm, hr, hfs, _⟩
  · rw [h.1, readFile_of_resolve fs k loc ino hk]
  · have hij : ino ≠ j := by
      intro e; subst e; exact hne l2 hr
    have hext : Extends fs (WriteFile fs name data).1 := by
      rw [hfs]; exact ⟨rfl, rfl, fun _ _ h => h⟩
    rw [readFile_of_resolve _ k loc ino (resolve_extends hext true k _ hk rfl), hfs]
    have := content_cons_ne fs fs.nodes ino j data hij
    simpa using congrArg some this
  · have hext : Extends fs (WriteFile fs name data).1 := by
      rw [hfs]; exact Extends.bound fs _ _ _ (resolve_absent fs true name par nm hr)
    have hlt := lt_freshIno fs loc ino (resolve_file fs true k loc ino hk)
    rw [readFile_of_resolve _ k loc ino (resolve_extends hext true k _ hk rfl), hfs]
    have := content_cons_ne fs ((par ++ [nm], Node.file (freshIno fs)) :: fs.nodes) ino
      (freshIno fs) data (Nat.ne_of_lt hlt)
    simpa using congrArg some this

/-- A write that reports no error has stored the data where its path leads. -/
theorem WriteFile_ok_readFile (fs : FS) (name data : Bytes)
    (h : (WriteFile fs name data).2 = none) :
    (WriteFile fs name data).1.readFile name = some data := by
  rcases WriteFile_cases fs name data with h1 | ⟨l2, j, hr, hfs, _⟩ | ⟨par, nm, hr, hfs, _⟩
  · exact absurd h h1.2
  · have hext : Extends fs (WriteFile fs name data).1 := by
      rw [hfs]; exact ⟨rfl, rfl, fun _ _ h => h⟩
    rw [readFile_of_resolve _ name l2 j (resolve_extends hext true name _ hr rfl), hfs]
    have := content_cons_self fs fs.nodes j data
    simpa using congrArg some this
  · have hres := resolve_created fs (WriteFile fs name data).1 name par nm (freshIno fs)
      (by rw [hfs]) (by rw [hfs]) (by rw [hfs]) hr
    rw [readFile_of_resolve _ name _ _ hres, hfs]
    have := content_cons_self fs ((par ++ [nm], Node.file (freshIno fs)) :: fs.nodes)
      (freshIno fs) data
    simpa using congrArg some this

/-- Directory creation leaves every regular file as it is. -/
theorem MkdirAll_readFile (fs : FS) (out k b : Bytes) (h : fs.readFile k = some b) :
    (MkdirAll fs out).1.readFile k = some b := by
  obtain ⟨loc, ino, hr, hc⟩ := readFile_eq_some fs k b h
  obtain ⟨hext, hdata⟩ := MkdirAll_extends fs out
  rw [readFile_of_resolve _ k loc ino (resolve_extends hext true k _ hr rfl)]
  simp [FS.content, hdata] at hc ⊢
  exact hc

/-! ## The save functions, case by case -/

theorem newEvents_self (w : World) : newEvents w w = [] := by
  simp [newEvents]

theorem newEvents_append (w w1 : World) (es : List Event) (h : w1.trace = w.trace ++ es) :
    newEvents w w1 = es := by
  simp [newEvents, h]

theorem saveFileSimple_nonempty (out filePath content : Bytes) (c : Bool) (w : World)
    (h : content ≠ []) :
    saveFileSimple out filePath content c w =
      osWriteFile (destFile out filePath c (osMkdirAll out w)) content (osMkdirAll out w) := by
  unfold saveFileSimple
  have : content.length ≠ 0 := by simpa using h
  simp [this]

theorem saveFile_nonempty (moduleName serverName out filePath content pluginName : Bytes)
    (c : Bool) (w : World) (h : content ≠ []) (hm : moduleName ≠ []) (hs : serverName ≠ []) :
    saveFile moduleName serverName out filePath content c pluginName w =
      osWriteFile (destFile out filePath c (osMkdirAll out w))
        (substitute moduleName serverName content) (osMkdirAll out w) := by
  unfold saveFile
  have : content.length ≠ 0 := by simpa using h
  simp [this, hm, hs]

theorem saveFile_empty (moduleName serverName out filePath pluginName : Bytes)
    (c : Bool) (w : World) :
    saveFile moduleName serverName out filePath [] c pluginName w = .ret none w := by
  simp [saveFile]

theorem saveFile_no_moduleName (serverName out filePath content pluginName : Bytes)
    (c : Bool) (w : World) (h : content ≠ []) :
    saveFile [] serverName out filePath content c pluginName w =
      .panic (optErrFormat (str "moduleName") pluginName) w := by
  unfold saveFile
  have : content.length ≠ 0 := by simpa using h
  simp [this]

theorem saveFile_no_serverName (moduleName out filePath content pluginName : Bytes)
    (c : Bool) (w : World) (h : content ≠ []) (hm : moduleName ≠ []) :
    saveFile moduleName [] out filePath content c pluginName w =
      .panic (optErrFormat (str "serverName") pluginName) w := by
  unfold saveFile
  have : content.length ≠ 0 := by simpa using h
  simp [this, hm]

/-- In every case `saveFile` either leaves the world as it is (empty content,
or a panic for a missing identifier) or is one directory creation and one
write of the substituted content. -/
theorem saveFile_cases (moduleName serverName out filePath content pluginName : Bytes)
    (c : Bool) (w : World) :
    (saveFile moduleName serverName out filePath content c pluginName w).world = w ∨
    (content ≠ [] ∧ moduleName ≠ [] ∧ serverName ≠ [] ∧
      saveFile moduleName serverName out filePath content c pluginName w =
        osWriteFile (destFile out filePath c (osMkdirAll out w))
          (substitute moduleName serverName content) (osMkdirAll out w)) := by
  by_cases h : content = []
  · left; subst h; rw [saveFile_empty]; rfl
  by_cases hm : moduleName = []
  · left; subst hm; rw [saveFile_no_moduleName _ _ _ _ _ _ _ h]; rfl
  by_cases hs : serverName = []
  · left; subst hs; rw [saveFile_no_serverName _ _ _ _ _ _ _ h hm]; rfl
  · right; exact ⟨h, hm, hs, saveFile_nonempty _ _ _ _ _ _ _ _ h hm hs⟩

/-! ## The timestamp -/

theorem decimalAux_one (fuel n : Nat) (acc : Bytes) (hf : 1 ≤ fuel) (h : n < 10) :
    decimalAux fuel n acc = (48 + n) :: acc := by
  obtain ⟨f, rfl⟩ : ∃ f, fuel = f + 1 := ⟨fuel - 1, by omega⟩
  simp [decimalAux, h]

theorem decimalAux_step (fuel n : Nat) (acc : Bytes) (h : 10 ≤ n) :
    decimalAux (fuel + 1) n acc = decimalAux fuel (n / 10) ((48 + n % 10) :: acc) := by
  have : ¬ n < 10 := by omega
  simp [decimalAux, this]

theorem decimal_lt_10 (n : Nat) (h : n < 10) : decimal n = [48 + n] := by
  unfold decimal
  exact decimalAux_one _ _ _ (by omega) h

theorem decimal_lt_100 (n : Nat) (h1 : 10 ≤ n) (h : n < 100) :
    decimal n = [48 + n / 10, 48 + n % 10] := by
  unfold decimal
  rw [decimalAux_step _ _ _ h1, decimalAux_one _ _ _ (by omega) (by omega)]

theorem decimal_lt_1000 (n : Nat) (h1 : 100 ≤ n) (h : n < 1000) :
    decimal n = [48 + n / 100, 48 + n / 10 % 10, 48 + n % 10] := by
  unfold decimal
  obtain ⟨f, rfl⟩ : ∃ f, n = f + 1 := ⟨n - 1, by omega⟩
  rw [decimalAux_step _ _ _ (by omega), decimalAux_step _ _ _ (by omega),
    decimalAux_one _ _ _ (by omega) (by omega)]
  have : (f + 1) / 10 / 10 = (f + 1) / 100 := by omega
  rw [this]

theorem decimal_lt_10000 (n : Nat) (h1 : 1000 ≤ n) (h : n < 10000) :
    decimal n = [48 + n / 1000, 48 + n / 100 % 10, 48 + n / 10 % 10, 48 + n % 10] := by
  unfold decimal
  obtain ⟨f, rfl⟩ : ∃ f, n = f + 2 := ⟨n - 2, by omega⟩
  rw [decimalAux_step _ _ _ (by omega), decimalAux_step _ _ _ (by omega),
    decimalAux_step _ _ _ (by omega), decimalAux_one _ _ _ (by omega) (by omega)]
  have e1 : (f + 2) / 10 / 10 / 10 = (f + 2) / 1000 := by omega
  have e2 : (f + 2) / 10 / 10 % 10  = (f + 2) / 100 % 10 := by omega
  rw [e1, e2]

/-- A two-digit field. -/
theorem appendInt_two (n : Nat) (h : n < 100) : appendInt n 2 = [48 + n / 10, 48 + n % 10] := by
  unfold appendInt
  by_cases h1 : n < 10
  · rw [decimal_lt_10 n h1]
    have : n / 10 = 0 := by omega
    have : n % 10 = n := by omega
    simp [*]
  · rw [decimal_lt_100 n (by omega) h]
    simp

/-- The year field, for a year of at most four digits. -/
theorem appendInt_four (n : Nat) (h : n < 10000) :
    appendInt n 4 = [48 + n / 1000, 48 + n / 100 % 10, 48 + n / 10 % 10, 48 + n % 10] := by
  unfold appendInt
  by_cases h1 : n < 10
  · rw [decimal_lt_10 n h1]
    have : n / 1000 = 0 := by omega
    have : n / 100 % 10 = 0 := by omega
    have : n / 10 % 10 = 0 := by omega
    have : n % 10 = n := by omega
    simp [*, List.replicate]
  by_cases h2 : n < 100
  · rw [decimal_lt_100 n (by omega) h2]
    have : n / 1000 = 0 := by omega
    have : n / 100 % 10 = 0 := by omega
    have : n / 10 % 10 = n / 10 := by omega
    simp [*, List.replicate]
  by_cases h3 : n < 1000
  · rw [decimal_lt_1000 n (by omega) h3]
    have : n / 1000 = 0 := by omega
    have : n / 100 % 10 = n / 100 := by omega
    simp [*, List.replicate]
  · rw [decimal_lt_10000 n (by omega) h]
    simp

/-- The timestamp of a clock whose year has at most four digits, digit by
digit. -/
theorem formatCompact_digits (t : Clock) (h : t.year ≤ 9999) :
    formatCompact t =
      [48 + t.year / 1000, 48 + t.year / 100 % 10, 48 + t.year / 10 % 10, 48 + t.year % 10,
       48 + t.month / 10, 48 + t.month % 10, 48 + t.day / 10, 48 + t.day % 10, 84,
       48 + t.hour / 10, 48 + t.hour % 10, 48 + t.minute / 10, 48 + t.minute % 10,
       48 + t.second / 10, 48 + t.second % 10] := by
  unfold formatCompact
  have := t.month_ok
  have := t.day_ok
  have := t.hour_ok
  have := t.minute_ok
  have := t.second_ok
  rw [appendInt_four _ (by omega), appendInt_two t.month (by omega), appendInt_two t.day (by omega),
    appendInt_two t.hour (by omega), appendInt_two t.minute (by omega),
    appendInt_two t.second (by omega)]
  rfl

theorem writesOf_mkdir_write (out p d : Bytes) :
    writesOf [Event.mkdirAll out, Event.writeFile p d] = [(p, d)] := by
  simp [writesOf]

theorem osWriteFile_newEvents (out file data : Bytes) (w : World) :
    newEvents w (osWriteFile file data (osMkdirAll out w)).world =
      [Event.mkdirAll out, Event.writeFile file data] := by
  apply newEvents_append
  show (w.trace ++ [Event.mkdirAll out]) ++ [Event.writeFile file data] = _
  rw [List.append_assoc]; rfl

theorem destFile_eq (out filePath : Bytes) (c : Bool) (w : World) :
    destFile out filePath c (osMkdirAll out w) =
      if c = true ∨ isExists (osMkdirAll out w).fs (out ++ str "/" ++ (Split filePath).2) = false
      then out ++ str "/" ++ (Split filePath).2
      else out ++ str "/" ++ (Split filePath).2 ++ (str ".gen" ++ formatCompact w.now) := by
  unfold destFile
  have hnow : (osMkdirAll out w).now = w.now := rfl
  simp only [hnow]
  generalize isExists (osMkdirAll out w).fs (out ++ str "/" ++ (Split filePath).2) = e
  cases c <;> cases e <;> simp

/-! ## One pass of `ReplaceAll` -/

theorem replaceFrom_skip (old new : Bytes) (s : Bytes) (k : Nat) :
    replaceFrom old new k s = replaceFrom old new 0 (s.drop k) := by
  induction s generalizing k with
  | nil => cases k <;> simp [replaceFrom]
  | cons c cs ih =>
    cases k with
    | zero => rfl
    | succ k => simp only [replaceFrom, List.drop_succ_cons]; exact ih k

theorem ReplaceAll_eq_scan (s old new : Bytes) (hold : old ≠ []) :
    ReplaceAll s old new = replaceFrom old new 0 s := by
  simp [ReplaceAll, hold]

theorem ReplaceAll_nil (old new : Bytes) (hold : old ≠ []) : ReplaceAll [] old new = [] := by
  rw [ReplaceAll_eq_scan _ _ _ hold]; rfl

theorem ReplaceAll_cons_match (old new : Bytes) (hold : old ≠ []) (c : Nat) (cs : Bytes)
    (h : old <+: c :: cs) :
    ReplaceAll (c :: cs) old new = new ++ ReplaceAll ((c :: cs).drop old.length) old new := by
  have hp : old.isPrefixOf (c :: cs) = true := List.isPrefixOf_iff_prefix.2 h
  obtain ⟨n, hn⟩ : ∃ n, old.length = n + 1 := by
    cases old with
    | nil => exact absurd rfl hold
    | cons a t => exact ⟨t.length, rfl⟩
  rw [ReplaceAll_eq_scan _ _ _ hold, ReplaceAll_eq_scan _ _ _ hold]
  simp only [replaceFrom, hp, if_true, hn, Nat.add_sub_cancel, List.drop_succ_cons]
  rw [replaceFrom_skip old new]

theorem ReplaceAll_cons_nomatch (old new : Bytes) (c : Nat) (cs : Bytes)
    (h : ¬ old <+: c :: cs) :
    ReplaceAll (c :: cs) old new = c :: ReplaceAll cs old new := by
  have hold : old ≠ [] := by
    intro h0
    exact h (h0 ▸ List.nil_prefix)
  have hp : old.isPrefixOf (c :: cs) = false := by
    cases hb : old.isPrefixOf (c :: cs) with
    | false => rfl
    | true => exact absurd (List.isPrefixOf_iff_prefix.1 hb) h
  rw [ReplaceAll_eq_scan _ _ _ hold, ReplaceAll_eq_scan _ _ _ hold]
  simp [replaceFrom, hp]

/-- One pass either finds no occurrence and returns its input, or splits the
input at the first occurrence it replaces. -/
theorem ReplaceAll_decompose (old new : Bytes) (hold : old ≠ []) (s : Bytes) :
    (¬ old <:+: s ∧ ReplaceAll s old new = s) ∨
    ∃ p rest, s = p ++ old ++ rest ∧ ¬ old <:+: p ∧
      ReplaceAll s old new = p ++ new ++ ReplaceAll rest old new := by
  induction s with
  | nil =>
    left
    refine ⟨?_, ReplaceAll_nil old new hold⟩
    intro h
    exact hold (List.infix_nil.1 h)
  | cons c cs ih =>
    by_cases hp : old <+: c :: cs
    · right
      refine ⟨[], (c :: cs).drop old.length, ?_, ?_, ?_⟩
      · simpa using (List.prefix_iff_eq_append.1 hp).symm
      · intro h; exact hold (List.infix_nil.1 h)
      · simpa using ReplaceAll_cons_match old new hold c cs hp
    · rcases ih with ⟨hno, heq⟩ | ⟨p, rest, hs, hnp, heq⟩
      · left
        refine ⟨?_, ?_⟩
        · intro h
          rcases List.infix_cons_iff.1 h with h1 | h1
          · exact hp h1
          · exact hno h1
        · rw [ReplaceAll_cons_nomatch old new c cs hp, heq]
      · right
        refine ⟨c :: p, rest, ?_, ?_, ?_⟩
        · simp [hs]
        · intro h
          rcases List.infix_cons_iff.1 h with h1 | h1
          · apply hp
            obtain ⟨t, ht⟩ := h1
            refine ⟨t ++ (old ++ rest), ?_⟩
            rw [hs, ← List.append_assoc, ht]
            simp
          · exact hnp h1
        · rw [ReplaceAll_cons_nomatch old new c cs hp, heq]
          simp

/-- What `OverlapFree` is for: an occurrence of the token in a text around
one copy of the value lies wholly before or wholly after the copy. -/
theorem OverlapFree.split {v tok : Bytes} (h : OverlapFree v tok) (a b : Bytes)
    (hin : tok <:+: a ++ v ++ b) : tok <:+: a ∨ tok <:+: b := by
  obtain ⟨h1, h2, h3, h4⟩ := h
  obtain ⟨s, t, hst⟩ := hin
  rw [List.append_assoc, List.append_assoc] at hst
  rcases List.append_eq_append_iff.1 hst with ⟨a', ha, hrest⟩ | ⟨c', hs, hrest⟩
  · -- the occurrence starts inside `a`
    rcases List.append_eq_append_iff.1 hrest with ⟨x, hx, _⟩ | ⟨y, hy, hvb⟩
    · left
      exact ⟨s, x, by rw [ha, hx, List.append_assoc]⟩
    · by_cases hy0 : y = []
      · left
        subst hy0
        exact ⟨s, [], by rw [ha, hy]; simp⟩
      · exfalso
        rcases List.append_eq_append_iff.1 hvb with ⟨z, hz, _⟩ | ⟨z, hz, _⟩
        · -- y = v ++ z
          apply h1
          exact ⟨a', z, by rw [hy, hz, List.append_assoc]⟩
        · -- v = y ++ z
          apply h3 y (by rw [List.mem_inits]; exact ⟨z, hz.symm⟩) hy0
          exact ⟨a', hy.symm⟩
  · -- the occurrence starts at or after the start of the copy
    rcases List.append_eq_append_iff.1 hrest with ⟨x, hx, hb⟩ | ⟨y, hy, htb⟩
    · -- v ++ x = c' : starts after the copy
      right
      exact ⟨x, t, by rw [hb, List.append_assoc]⟩
    · -- v = c' ++ y
      by_cases hy0 : y = []
      · right
        subst hy0
        refine ⟨[], t, ?_⟩
        simpa using htb
      · exfalso
        rcases List.append_eq_append_iff.1 htb with ⟨z, hz, _⟩ | ⟨z, hz, _⟩
        · -- y = tok ++ z
          apply h2
          exact ⟨c', z, by rw [hy, hz, List.append_assoc]⟩
        · -- tok = y ++ z
          apply h4 y (by rw [List.mem_tails]; exact ⟨c', hy.symm⟩) hy0
          exact ⟨z, hz.symm⟩

/-- A pass whose value is overlap-free with a token leaves no occurrence of
the token, when the token is the one replaced or was absent before. -/
theorem ReplaceAll_no_token (tok old new : Bytes) (hold : old ≠ [])
    (hfree : OverlapFree new tok) :
    ∀ (n : Nat) (s : Bytes), s.length ≤ n → (tok = old ∨ ¬ tok <:+: s) →
      ¬ tok <:+: ReplaceAll s old new := by
  intro n
  induction n with
  | zero =>
    intro s hlen h
    have hs : s = [] := List.eq_nil_of_length_eq_zero (by omega)
    subst hs
    rw [ReplaceAll_nil old new hold]
    rcases h with h | h
    · subst h; intro hin; exact hold (List.infix_nil.1 hin)
    · exact h
  | succ n ih =>
    intro s hlen h
    rcases ReplaceAll_decompose old new hold s with ⟨hno, heq⟩ | ⟨p, rest, hs, hnp, heq⟩
    · rw [heq]
      rcases h with h | h
      · subst h; exact hno
      · exact h
    · rw [heq]
      intro hin
      have hlen2 : rest.length ≤ n := by
        have : s.length = p.length + old.length + rest.length := by
          rw [hs]; simp; omega
        have : 0 < old.length := List.length_pos.2 hold
        omega
      have hrest : tok = old ∨ ¬ tok <:+: rest := by
        rcases h with h | h
        · left; exact h
        · right
          intro hr
          apply h
          rw [hs]
          exact hr.trans (List.infix_append' (p ++ old) rest [] |>.trans (by simp))
      rcases hfree.split p _ hin with h1 | h1
      · rcases h with h | h
        · subst h; exact hnp h1
        · apply h
          rw [hs, List.append_assoc]
          exact h1.trans (List.infix_append' [] p (old ++ rest))
      · exact ih rest hlen2 hrest h1

theorem ReplaceAll_removes (old new s : Bytes) (hold : old ≠ []) (hfree : OverlapFree new old) :
    ¬ old <:+: ReplaceAll s old new :=
  ReplaceAll_no_token old old new hold hfree s.length s le_rfl (Or.inl rfl)

theorem ReplaceAll_keeps_absent (tok old new s : Bytes) (hold : old ≠ [])
    (hfree : OverlapFree new tok) (h : ¬ tok <:+: s) :
    ¬ tok <:+: ReplaceAll s old new :=
  ReplaceAll_no_token tok old new hold hfree s.length s le_rfl (Or.inr h)

theorem substitute_no_placeholder (moduleName serverName content : Bytes)
    (h11 : OverlapFree moduleName (str "moduleNameExample"))
    (h21 : OverlapFree serverName (str "moduleNameExample"))
    (h22 : OverlapFree serverName (str "serverNameExample"))
    (h31 : OverlapFree (firstLetterToUpper serverName) (str "moduleNameExample"))
    (h32 : OverlapFree (firstLetterToUpper serverName) (str "serverNameExample"))
    (h33 : OverlapFree (firstLetterToUpper serverName)
      (firstLetterToUpper (str "serverNameExample"))) :
    ∀ tok ∈ placeholders, ¬ tok <:+: substitute moduleName serverName content := by
  have n1 : str "moduleNameExample" ≠ [] := by decide
  have n2 : str "serverNameExample" ≠ [] := by decide
  have n3 : firstLetterToUpper (str "serverNameExample") ≠ [] := by decide
  intro tok htok
  unfold substitute
  simp only [placeholders, List.mem_cons, List.mem_singleton, List.not_mem_nil, or_false] at htok
  rcases htok with rfl | rfl | rfl
  · exact ReplaceAll_keeps_absent _ _ _ _ n3 h31
      (ReplaceAll_keeps_absent _ _ _ _ n2 h21 (ReplaceAll_removes _ _ _ n1 h11))
  · exact ReplaceAll_keeps_absent _ _ _ _ n3 h32 (ReplaceAll_removes _ _ _ n2 h22)
  · exact ReplaceAll_removes _ _ _ n3 h33

/-- C3 (amended).  When neither identifier can take part in an occurrence of
a placeholder token (`moduleName` with regard to `moduleNameExample`,
`serverName` with regard to `moduleNameExample` and `serverNameExample`, the
capitalised `serverName` with regard to all three), the bytes `saveFile`
writes contain none of `moduleNameExample`, `serverNameExample` and
`ServerNameExample`, whatever the content. -/
theorem saveFile_writes_no_placeholder
    (moduleName serverName out filePath content pluginName : Bytes) (c : Bool) (w : World)
    (h11 : OverlapFree moduleName (str "moduleNameExample"))
    (h21 : OverlapFree serverName (str "moduleNameExample"))
    (h22 : OverlapFree serverName (str "serverNameExample"))
    (h31 : OverlapFree (firstLetterToUpper serverName) (str "moduleNameExample"))
    (h32 : OverlapFree (firstLetterToUpper serverName) (str "serverNameExample"))
    (h33 : OverlapFree (firstLetterToUpper serverName)
      (firstLetterToUpper (str "serverNameExample"))) :
    ∀ pd ∈ writesOf (newEvents w
        (saveFile moduleName serverName out filePath content c pluginName w).world),
      ¬ str "moduleNameExample" <:+: pd.2 ∧ ¬ str "serverNameExample" <:+: pd.2 ∧
      ¬ str "ServerNameExample" <:+: pd.2 := by
  intro pd hpd
  have hsub := substitute_no_placeholder moduleName serverName content h11 h21 h22 h31 h32 h33
  rcases saveFile_cases moduleName serverName out filePath content pluginName c w with h | h
  · rw [h, newEvents_self] at hpd
    simp [writesOf] at hpd
  · rw [h.2.2.2, osWriteFile_newEvents, writesOf_mkdir_write] at hpd
    simp only [List.mem_singleton] at hpd
    subst hpd
    refine ⟨hsub _ (by simp [placeholders]), hsub _ (by simp [placeholders]), ?_⟩
    have := hsub (firstLetterToUpper (str "serverNameExample")) (by simp [placeholders])
    exact this

/-- Witness of C3 (amended): module `github.com/foo/bar`, server `bar`; the
bytes written for a content with all three tokens contain none of them. -/
theorem saveFile_writes_no_placeholder_witness :
    OverlapFree (str "bar") (str "serverNameExample") ∧
    (¬ str "moduleNameExample" <:+: str "package bar // github.com/foo/bar/Bar" ∧
      ¬ str "serverNameExample" <:+: str "package bar // github.com/foo/bar/Bar" ∧
      ¬ str "ServerNameExample" <:+: str "package bar // github.com/foo/bar/Bar") :=
  ⟨by decide,
   saveFile_writes_no_placeholder (str "github.com/foo/bar") (str "bar") (str "out")
    (str "a/x.go") (str "package serverNameExample // moduleNameExample/ServerNameExample")
    (str "handler") false ⟨fsEmptyOut, noon2024, []⟩
    (by decide) (by decide) (by decide) (by decide) (by decide) (by decide)
    (str "out/x.go", str "package bar // github.com/foo/bar/Bar") (by decide)⟩

/-- C3 as stated fails.  With server name `serverNameExample` the second pass
replaces the token by itself and the bytes written still contain it; with the
server name `n` and a content in which `ServerNameExample` stands inside
`module...ameExample`, the third pass forms `moduleNameExample`. -/
theorem saveFile_writes_placeholder :
    (writesOf (newEvents ⟨fsEmptyOut, noon2024, []⟩
        (saveFile (str "m") (str "serverNameExample") (str "out") (str "a/x.go")
          (str "package serverNameExample") false (str "handler")
          ⟨fsEmptyOut, noon2024, []⟩).world) =
      [(str "out/x.go", str "package serverNameExample")] ∧
      str "serverNameExample" <:+: str "package serverNameExample") ∧
    (writesOf (newEvents ⟨fsEmptyOut, noon2024, []⟩
        (saveFile (str "m") (str "n") (str "out") (str "a/x.go")
          (str "moduleServerNameExampleameExample") false (str "handler")
          ⟨fsEmptyOut, noon2024, []⟩).world) =
      [(str "out/x.go", str "moduleNameExample")]) := by
  decide

/-- C4.  With non-empty content and an empty `moduleName` or `serverName`,
`saveFile` panics with the "cannot be empty" message and leaves the world as
it found it: no directory is created, no file is written, nothing is added to
the trace.  With empty content it returns nil, again leaving the world as it
is, whatever the identifiers. -/
theorem saveFile_panics_before_effects
    (moduleName serverName out filePath content pluginName : Bytes) (c : Bool) (w : World) :
    (content ≠ [] → moduleName = [] →
      saveFile moduleName serverName out filePath content c pluginName w =
        .panic (optErrFormat (str "moduleName") pluginName) w) ∧
    (content ≠ [] → moduleName ≠ [] → serverName = [] →
      saveFile moduleName serverName out filePath content c pluginName w =
        .panic (optErrFormat (str "serverName") pluginName) w) ∧
    (content ≠ [] → (moduleName = [] ∨ serverName = []) →
      (saveFile moduleName serverName out filePath content c pluginName w).returned = none ∧
      (saveFile moduleName serverName out filePath content c pluginName w).world = w) ∧
    (content = [] →
      saveFile moduleName serverName out filePath content c pluginName w = .ret none w) := by
  refine ⟨?_, ?_, ?_, ?_⟩
  · intro hc hm
    subst hm
    exact saveFile_no_moduleName _ _ _ _ _ _ _ hc
  · intro hc hm hs
    subst hs
    exact saveFile_no_serverName _ _ _ _ _ _ _ hc hm
  · intro hc h
    by_cases hm : moduleName = []
    · subst hm
      rw [saveFile_no_moduleName _ _ _ _ _ _ _ hc]
      exact ⟨rfl, rfl⟩
    · rcases h with h | h
      · exact absurd h hm
      · subst h
        rw [saveFile_no_serverName _ _ _ _ _ _ _ hc hm]
        exact ⟨rfl, rfl⟩
  · intro hc
    subst hc
    exact saveFile_empty _ _ _ _ _ _ _

/-- Witness of C4: content `new`, server name given, module name empty. -/
theorem saveFile_panics_before_effects_witness :
    (saveFile (str "") (str "s") (str "out") (str "a/x.go") (str "new") false (str "handler")
        ⟨fsEmptyOut, noon2024, []⟩).returned = none ∧
    (saveFile (str "") (str "s") (str "out") (str "a/x.go") (str "new") false (str "handler")
        ⟨fsEmptyOut, noon2024, []⟩).world = ⟨fsEmptyOut, noon2024, []⟩ :=
  (saveFile_panics_before_effects (str "") (str "s") (str "out") (str "a/x.go") (str "new")
    (str "handler") false ⟨fsEmptyOut, noon2024, []⟩).2.2.1 (by decide) (Or.inl (by decide))

/-! ## The batch loop -/

/-- The loop never returns an error: it returns nil or it panics. -/
theorem processFiles_no_error (g : Generators) (hf sf : Bool)
    (moduleName serverName logicOut routerOut ecodeOut : Bytes) (files : List File) (w : World) :
    ∀ err w1, processFiles g hf sf moduleName serverName logicOut routerOut ecodeOut files w
      ≠ .ret (some err) w1 := by
  induction files generalizing w with
  | nil => intro err w1 h; simp [processFiles] at h
  | cons f rest ih =>
    intro err w1
    unfold processFiles
    split_ifs
    · exact ih _ err w1
    · split
      · intro h; cases h
      · exact ih _ err w1
      · exact ih _ err w1
    · split
      · intro h; cases h
      · exact ih _ err w1
      · exact ih _ err w1
    · exact ih _ err w1

/-- C5 (amended).  The run fails with the "unknown plugin" error exactly when
the plugin selector, once its spaces are removed, is none of `handler`,
`service` and the empty string; it then returns at once, in the world it
started in: nothing has been generated or saved.  In no other case does the
run return an error. -/
theorem run_unknown_plugin (g : Generators) (flags : Flags) (gen : Plugin) (w : World) :
    ((∃ err w1, run g flags gen w = .ret (some err) w1) ↔
      (ReplaceAll flags.plugin (str " ") (str "") ≠ str "handler" ∧
       ReplaceAll flags.plugin (str " ") (str "") ≠ str "service" ∧
       ReplaceAll flags.plugin (str " ") (str "") ≠ str "")) ∧
    ((ReplaceAll flags.plugin (str " ") (str "") ≠ str "handler" ∧
       ReplaceAll flags.plugin (str " ") (str "") ≠ str "service" ∧
       ReplaceAll flags.plugin (str " ") (str "") ≠ str "") →
      run g flags gen w = .ret (some (Error.unknownPlugin flags.plugin)) w) := by
  have hfwd : (ReplaceAll flags.plugin (str " ") (str "") ≠ str "handler" ∧
       ReplaceAll flags.plugin (str " ") (str "") ≠ str "service" ∧
       ReplaceAll flags.plugin (str " ") (str "") ≠ str "") →
      run g flags gen w = .ret (some (Error.unknownPlugin flags.plugin)) w := by
    rintro ⟨h1, h2, h3⟩
    unfold run
    simp only [handlerPlugin, servicePlugin, h1, h2, h3, if_false]
  refine ⟨⟨?_, fun h => ⟨_, _, hfwd h⟩⟩, hfwd⟩
  rintro ⟨err, w1, h⟩
  unfold run at h
  simp only [handlerPlugin, servicePlugin] at h
  refine ⟨?_, ?_, ?_⟩
  · intro h1
    simp only [h1, if_true] at h
    exact processFiles_no_error _ _ _ _ _ _ _ _ _ _ _ _ h
  · intro h2
    by_cases h1 : ReplaceAll flags.plugin (str " ") (str "") = str "handler"
    · simp only [h1, if_true] at h
      exact processFiles_no_error _ _ _ _ _ _ _ _ _ _ _ _ h
    · simp only [h1, h2, if_true, if_false] at h
      exact processFiles_no_error _ _ _ _ _ _ _ _ _ _ _ _ h
  · intro h3
    by_cases h1 : ReplaceAll flags.plugin (str " ") (str "") = str "handler"
    · simp only [h1, if_true] at h
      exact processFiles_no_error _ _ _ _ _ _ _ _ _ _ _ _ h
    · by_cases h2 : ReplaceAll flags.plugin (str " ") (str "") = str "service"
      · simp only [h1, h2, if_true, if_false] at h
        exact processFiles_no_error _ _ _ _ _ _ _ _ _ _ _ _ h
      · simp only [h1, h2, h3, if_true, if_false] at h
        exact processFiles_no_error _ _ _ _ _ _ _ _ _ _ _ _ h

/-- Witness of C5 (amended): the selector `dao` is unknown. -/
theorem run_unknown_plugin_witness :
    run exampleGenerators (handlerFlags (str "dao")) exampleBatch ⟨fsEmptyOut, noon2024, []⟩ =
      .ret (some (Error.unknownPlugin (str "dao"))) ⟨fsEmptyOut, noon2024, []⟩ :=
  (run_unknown_plugin exampleGenerators (handlerFlags (str "dao")) exampleBatch
    ⟨fsEmptyOut, noon2024, []⟩).2 (by decide)

/-- C5 as stated fails: the selector `handler ` (with a trailing space) is
none of `handler`, `service` and the empty string, yet the run does not fail;
it returns nil after generating the router files of the batch. -/
theorem run_selector_with_space :
    (str "handler " ≠ str "handler" ∧ str "handler " ≠ str "service" ∧ str "handler " ≠ str "") ∧
    (run exampleGenerators (handlerFlags (str "handler ")) exampleBatch
      ⟨fsEmptyOut, noon2024, []⟩).returned = some none ∧
    generatedOf (newEvents ⟨fsEmptyOut, noon2024, []⟩
      (run exampleGenerators (handlerFlags (str "handler ")) exampleBatch
        ⟨fsEmptyOut, noon2024, []⟩).world) = [str "b", str "a"] := by
  decide

theorem Quiet.refl (w : World) : Quiet w w := ⟨[], by simp, rfl⟩

theorem Quiet.trans {w w1 w2 : World} (h1 : Quiet w w1) (h2 : Quiet w1 w2) : Quiet w w2 := by
  obtain ⟨e1, t1, s1⟩ := h1
  obtain ⟨e2, t2, s2⟩ := h2
  refine ⟨e1 ++ e2, by rw [t2, t1, List.append_assoc], ?_⟩
  unfold stepsOf at *
  rw [List.filter_append, s1, s2]; rfl

theorem osWriteFile_quiet (out file data : Bytes) (w : World) :
    ∃ r w1, osWriteFile file data (osMkdirAll out w) = .ret r w1 ∧ Quiet w w1 := by
  refine ⟨_, _, rfl, [Event.mkdirAll out, Event.writeFile file data], ?_, rfl⟩
  show (w.trace ++ [Event.mkdirAll out]) ++ [Event.writeFile file data] = _
  rw [List.append_assoc]; rfl

/-- With both identifiers `saveFile` returns (it does not panic) and adds no
step of the batch loop. -/
theorem saveFile_returns (moduleName serverName out filePath content pluginName : Bytes)
    (c : Bool) (w : World) (hm : moduleName ≠ []) (hs : serverName ≠ []) :
    ∃ r w1, saveFile moduleName serverName out filePath content c pluginName w = .ret r w1 ∧
      Quiet w w1 := by
  by_cases hc : content = []
  · subst hc
    exact ⟨none, w, saveFile_empty _ _ _ _ _ _ _, Quiet.refl w⟩
  · rw [saveFile_nonempty _ _ _ _ _ _ _ _ hc hm hs]
    exact osWriteFile_quiet _ _ _ _

theorem saveFileSimple_returns (out filePath content : Bytes) (c : Bool) (w : World) :
    ∃ r w1, saveFileSimple out filePath content c w = .ret r w1 ∧ Quiet w w1 := by
  by_cases hc : content = []
  · subst hc
    exact ⟨none, w, by simp [saveFileSimple], Quiet.refl w⟩
  · rw [saveFileSimple_nonempty _ _ _ _ _ hc]
    exact osWriteFile_quiet _ _ _ _

/-- Three saves in a row, each skipped after an error: the shape shared by
the two save functions. -/
theorem three_saves_return (s1 s2 s3 : World → Outcome (Option Error)) (w : World)
    (h1 : ∀ w, ∃ r w1, s1 w = .ret r w1 ∧ Quiet w w1)
    (h2 : ∀ w, ∃ r w1, s2 w = .ret r w1 ∧ Quiet w w1)
    (h3 : ∀ w, ∃ r w1, s3 w = .ret r w1 ∧ Quiet w w1) :
    ∃ r w3,
      (match s1 w with
        | .panic msg w1 => Outcome.panic msg w1
        | .ret (some err) w1 => .ret (some err) w1
        | .ret none w1 =>
          match s2 w1 with
          | .panic msg w2 => .panic msg w2
          | .ret (some err) w2 => .ret (some err) w2
          | .ret none w2 =>
            match s3 w2 with
            | .panic msg w3 => .panic msg w3
            | .ret (some err) w3 => .ret (some err) w3
            | .ret none w3 => .ret none w3) = .ret r w3 ∧ Quiet w w3 := by
  obtain ⟨r1, w1, e1, q1⟩ := h1 w
  rw [e1]
  cases r1 with
  | some err => exact ⟨_, _, rfl, q1⟩
  | none =>
    simp only
    obtain ⟨r2, w2, e2, q2⟩ := h2 w1
    rw [e2]
    cases r2 with
    | some err => exact ⟨_, _, rfl, q1.trans q2⟩
    | none =>
      simp only
      obtain ⟨r3, w3, e3, q3⟩ := h3 w2
      rw [e3]
      cases r3 with
      | some err => exact ⟨_, _, rfl, (q1.trans q2).trans q3⟩
      | none => exact ⟨_, _, rfl, (q1.trans q2).trans q3⟩

theorem saveHandlerAndRouterFiles_returns (g : Generators) (f : File)
    (moduleName serverName logicOut routerOut ecodeOut : Bytes) (w : World)
    (hm : moduleName ≠ []) (hs : serverName ≠ []) :
    ∃ r w1, saveHandlerAndRouterFiles g f moduleName serverName logicOut routerOut ecodeOut w
        = .ret r w1 ∧ Quiet (enterSave handlerPlugin f w) w1 := by
  unfold saveHandlerAndRouterFiles
  exact three_saves_return _ _ _ _
    (fun w => saveFile_returns _ _ _ _ _ _ _ w hm hs)
    (fun w => saveFile_returns _ _ _ _ _ _ _ w hm hs)
    (fun w => saveFileSimple_returns _ _ _ _ w)

theorem saveServiceAndRouterFiles_returns (g : Generators) (f : File)
    (moduleName serverName logicOut routerOut ecodeOut : Bytes) (w : World)
    (hm : moduleName ≠ []) (hs : serverName ≠ []) :
    ∃ r w1, saveServiceAndRouterFiles g f moduleName serverName logicOut routerOut ecodeOut w
        = .ret r w1 ∧ Quiet (enterSave servicePlugin f w) w1 := by
  unfold saveServiceAndRouterFiles
  exact three_saves_return _ _ _ _
    (fun w => saveFile_returns _ _ _ _ _ _ _ w hm hs)
    (fun w => saveFile_returns _ _ _ _ _ _ _ w hm hs)
    (fun w => saveFileSimple_returns _ _ _ _ w)

/-- The loop under the handler or the service plugin with both identifiers:
it returns nil and takes exactly the expected steps. -/
theorem processFiles_steps (g : Generators) (hf : Bool)
    (moduleName serverName logicOut routerOut ecodeOut : Bytes)
    (hm : moduleName ≠ []) (hs : serverName ≠ []) (files : List File) (w : World) :
    ∃ w1 es, processFiles g hf (!hf) moduleName serverName logicOut routerOut ecodeOut files w
        = .ret none w1 ∧ w1.trace = w.trace ++ es ∧
      stepsOf es = expectedSteps (if hf then handlerPlugin else servicePlugin) files := by
  induction files generalizing w with
  | nil => exact ⟨w, [], rfl, by simp, rfl⟩
  | cons f rest ih =>
    unfold processFiles
    by_cases hg : f.Generate = true
    swap
    · have hg2 : f.Generate = false := by simpa using hg
      simp only [hg2, Bool.not_false, if_true]
      obtain ⟨w1, es, e, t, s⟩ := ih w
      refine ⟨w1, es, e, t, ?_⟩
      rw [s]; simp [expectedSteps, hg2]
    · simp only [hg, Bool.not_true, Bool.false_eq_true, if_false]
      cases hf with
      | true =>
        simp only [if_true]
        obtain ⟨r, w1, e1, es1, t1, s1⟩ := saveHandlerAndRouterFiles_returns g f moduleName
          serverName logicOut routerOut ecodeOut (routerGenerateFile f w) hm hs
        rw [e1]
        obtain ⟨w2, es2, e2, t2, s2⟩ := ih w1
        have hres : ∃ w2 es, (match r with
            | some _ => processFiles g true (!true) moduleName serverName logicOut routerOut
                ecodeOut rest w1
            | none => processFiles g true (!true) moduleName serverName logicOut routerOut
                ecodeOut rest w1) = Outcome.ret none w2 ∧
            w2.trace = w.trace ++ es ∧
            stepsOf es = expectedSteps handlerPlugin (f :: rest) := by
          refine ⟨w2, [Event.generateFile f.GeneratedFilenamePrefix,
            Event.saveFiles handlerPlugin f.GeneratedFilenamePrefix] ++ es1 ++ es2, ?_, ?_, ?_⟩
          · cases r <;> exact e2
          · rw [t2, t1]
            simp [enterSave, routerGenerateFile]
          · unfold stepsOf at *
            rw [List.filter_append, List.filter_append, s1, s2]
            simp [expectedSteps, hg, stepsOf]
        cases r <;> exact hres
      | false =>
        simp only [Bool.false_eq_true, if_false, Bool.not_false, if_true]
        obtain ⟨r, w1, e1, es1, t1, s1⟩ := saveServiceAndRouterFiles_returns g f moduleName
          serverName logicOut routerOut ecodeOut (routerGenerateFile f w) hm hs
        rw [e1]
        obtain ⟨w2, es2, e2, t2, s2⟩ := ih w1
        have hres : ∃ w2 es, (match r with
            | some _ => processFiles g false (!false) moduleName serverName logicOut routerOut
                ecodeOut rest w1
            | none => processFiles g false (!false) moduleName serverName logicOut routerOut
                ecodeOut rest w1) = Outcome.ret none w2 ∧
            w2.trace = w.trace ++ es ∧
            stepsOf es = expectedSteps servicePlugin (f :: rest) := by
          refine ⟨w2, [Event.generateFile f.GeneratedFilenamePrefix,
            Event.saveFiles servicePlugin f.GeneratedFilenamePrefix] ++ es1 ++ es2, ?_, ?_, ?_⟩
          · cases r <;> exact e2
          · rw [t2, t1]
            simp [enterSave, routerGenerateFile]
          · unfold stepsOf at *
            rw [List.filter_append, List.filter_append, s1, s2]
            simp [expectedSteps, hg, stepsOf]
        cases r <;> exact hres

theorem generatedOf_stepsOf (es : List Event) : generatedOf (stepsOf es) = generatedOf es := by
  induction es with
  | nil => rfl
  | cons e rest ih =>
    cases e <;> simp_all [generatedOf, stepsOf, List.filter_cons, List.filterMap_cons]

theorem savedOf_stepsOf (es : List Event) : savedOf (stepsOf es) = savedOf es := by
  induction es with
  | nil => rfl
  | cons e rest ih =>
    cases e <;> simp_all [savedOf, stepsOf, List.filter_cons, List.filterMap_cons]

theorem generatedOf_expectedSteps (pluginName : Bytes) (files : List File) :
    generatedOf (expectedSteps pluginName files) =
      (files.filter (fun f => f.Generate)).map (fun f => f.GeneratedFilenamePrefix) := by
  unfold expectedSteps
  induction files.filter (fun f => f.Generate) with
  | nil => rfl
  | cons f rest ih =>
    simp only [List.flatMap_cons, List.map_cons]
    rw [← ih]
    simp [generatedOf, List.filterMap_cons]

theorem savedOf_expectedSteps (pluginName : Bytes) (files : List File) :
    savedOf (expectedSteps pluginName files) =
      (files.filter (fun f => f.Generate)).map (fun f => f.GeneratedFilenamePrefix) := by
  unfold expectedSteps
  induction files.filter (fun f => f.Generate) with
  | nil => rfl
  | cons f rest ih =>
    simp only [List.flatMap_cons, List.map_cons]
    rw [← ih]
    simp [savedOf, List.filterMap_cons]

/-- The run under the handler or the service plugin with both identifiers. -/
theorem run_steps (g : Generators) (flags : Flags) (gen : Plugin) (w : World)
    (hp : ReplaceAll flags.plugin (str " ") (str "") = str "handler" ∨
      ReplaceAll flags.plugin (str " ") (str "") = str "service")
    (hm : flags.moduleName ≠ []) (hs : flags.serverName ≠ []) :
    ∃ w1, run g flags gen w = .ret none w1 ∧
      stepsOf (newEvents w w1) =
        expectedSteps (ReplaceAll flags.plugin (str " ") (str "")) gen.Files := by
  unfold run
  rcases hp with hp | hp
  · simp only [hp, handlerPlugin, if_true]
    obtain ⟨w1, es, e, t, s⟩ := processFiles_steps g true flags.moduleName flags.serverName
      (orDefault flags.logicOut (str "internal/handler"))
      (orDefault flags.routerOut (str "internal/routers"))
      (orDefault flags.ecodeOut (str "internal/ecode")) hm hs gen.Files w
    exact ⟨w1, e, by rw [newEvents_append w w1 es t, s]; rfl⟩
  · have hne : str "service" ≠ str "handler" := by decide
    simp only [hp, handlerPlugin, servicePlugin, hne, if_true, if_false]
    obtain ⟨w1, es, e, t, s⟩ := processFiles_steps g false flags.moduleName flags.serverName
      (orDefault flags.logicOut (str "internal/service"))
      (orDefault flags.routerOut (str "internal/routers"))
      (orDefault flags.ecodeOut (str "internal/ecode")) hm hs gen.Files w
    exact ⟨w1, e, by rw [newEvents_append w w1 es t, s]; rfl⟩

/-- C6.  Under the handler or the service plugin, with non-empty `moduleName`
and `serverName`, whatever the file system and whatever the generators return
(hence whether or not a save returns an error): the run returns nil, and for
every file of the batch marked `Generate`, in batch order, the router file is
generated and then the save function is entered; no other file is touched. -/
theorem run_processes_every_file (g : Generators) (flags : Flags) (gen : Plugin) (w : World)
    (hp : ReplaceAll flags.plugin (str " ") (str "") = str "handler" ∨
      ReplaceAll flags.plugin (str " ") (str "") = str "service")
    (hm : flags.moduleName ≠ []) (hs : flags.serverName ≠ []) :
    (run g flags gen w).returned = some none ∧
    stepsOf (newEvents w (run g flags gen w).world) =
      (gen.Files.filter (fun f => f.Generate)).flatMap
        (fun f => [Event.generateFile f.GeneratedFilenamePrefix,
          Event.saveFiles (ReplaceAll flags.plugin (str " ") (str "")) f.GeneratedFilenamePrefix]) ∧
    generatedOf (newEvents w (run g flags gen w).world) =
      (gen.Files.filter (fun f => f.Generate)).map (fun f => f.GeneratedFilenamePrefix) ∧
    savedOf (newEvents w (run g flags gen w).world) =
      (gen.Files.filter (fun f => f.Generate)).map (fun f => f.GeneratedFilenamePrefix) := by
  obtain ⟨w1, e, s⟩ := run_steps g flags gen w hp hm hs
  rw [e]
  refine ⟨rfl, s, ?_, ?_⟩
  · show generatedOf (newEvents w w1) = _
    rw [← generatedOf_stepsOf, s, generatedOf_expectedSteps]
  · show savedOf (newEvents w w1) = _
    rw [← savedOf_stepsOf, s, savedOf_expectedSteps]

/-- Witness of C6: in a tree where the write for `b` fails, `b` and then `a`
are both generated and saved. -/
theorem run_processes_every_file_witness :
    (saveHandlerAndRouterFiles exampleGenerators ⟨true, str "b", str "logic of b"⟩
        (str "m") (str "s") (str "internal/handler") (str "internal/routers")
        (str "internal/ecode")
        (routerGenerateFile ⟨true, str "b", str "logic of b"⟩
          ⟨fsBlockedB, noon2024, []⟩)).returned =
      some (some (Error.pathError "open" (str "internal/handler/b.go.gen20240101T120000")
        Errno.EISDIR)) ∧
    savedOf (newEvents ⟨fsBlockedB, noon2024, []⟩
      (run exampleGenerators (handlerFlags (str "handler")) exampleBatch
        ⟨fsBlockedB, noon2024, []⟩).world) = [str "b", str "a"] :=
  ⟨by decide,
   (run_processes_every_file exampleGenerators (handlerFlags (str "handler")) exampleBatch
      ⟨fsBlockedB, noon2024, []⟩ (Or.inl (by decide)) (by decide) (by decide)).2.2.2⟩

/-- C7 as stated fails.  For the batch `b`, `a`: in the first tree the save of
`b`, and of no other file, returns an error (`a` is saved); in the second tree
every save succeeds; the run hands back the same in both: nil, no panic, the
router files of `b` and `a`.  Nothing reports the failure for `b`. -/
theorem run_hides_save_error :
    (saveHandlerAndRouterFiles exampleGenerators ⟨true, str "b", str "logic of b"⟩
        (str "m") (str "s") (str "internal/handler") (str "internal/routers")
        (str "internal/ecode")
        (routerGenerateFile ⟨true, str "b", str "logic of b"⟩
          ⟨fsBlockedB, noon2024, []⟩)).returned =
      some (some (Error.pathError "open" (str "internal/handler/b.go.gen20240101T120000")
        Errno.EISDIR)) ∧
    (run exampleGenerators (handlerFlags (str "handler")) exampleBatch
      ⟨fsBlockedB, noon2024, []⟩).world.fs.readFile (str "internal/ecode/a_http.go") =
        some (str "ecode") ∧
    (run exampleGenerators (handlerFlags (str "handler")) exampleBatch
      ⟨fsBlockedB, noon2024, []⟩).world.fs.readFile (str "internal/ecode/b_http.go") = none ∧
    (run exampleGenerators (handlerFlags (str "handler")) exampleBatch
      ⟨fsEmptyOut, noon2024, []⟩).world.fs.readFile (str "internal/ecode/a_http.go") =
        some (str "ecode") ∧
    (run exampleGenerators (handlerFlags (str "handler")) exampleBatch
      ⟨fsEmptyOut, noon2024, []⟩).world.fs.readFile (str "internal/ecode/b_http.go") =
        some (str "ecode") ∧
    response ⟨fsBlockedB, noon2024, []⟩
        (run exampleGenerators (handlerFlags (str "handler")) exampleBatch
          ⟨fsBlockedB, noon2024, []⟩) = (none, none, [str "b", str "a"]) ∧
    response ⟨fsEmptyOut, noon2024, []⟩
        (run exampleGenerators (handlerFlags (str "handler")) exampleBatch
          ⟨fsEmptyOut, noon2024, []⟩) = (none, none, [str "b", str "a"]) := by
  decide

/-! ## The dao loop -/

theorem generatedTables_append (a b : List DaoEvent) :
    generatedTables (a ++ b) = generatedTables a ++ generatedTables b := by
  simp [generatedTables, List.filterMap_append]

/-- The loop processes the non-empty names in order and stops at the first
failure. -/
theorem daoLoop_trace (env : DaoEnv) (m : Bytes) (l : List Bytes) :
    ∀ (count : Nat) (st : DaoState),
      ((daoLoop env m count l st).1 = none →
        generatedTables (daoLoop env m count l st).2.trace =
          generatedTables st.trace ++ tableNamesOf l) ∧
      (∀ e, (daoLoop env m count l st).1 = some e →
        ∃ pre t post, tableNamesOf l = pre ++ t :: post ∧
          generatedTables (daoLoop env m count l st).2.trace =
            generatedTables st.trace ++ (pre ++ [t]) ∧ FailsAt env m t e) := by
  induction l with
  | nil =>
    intro count st
    refine ⟨fun _ => by simp [daoLoop, tableNamesOf], fun e h => ?_⟩
    simp [daoLoop] at h
  | cons t rest ih =>
    intro count st
    unfold daoLoop
    by_cases ht : t = []
    · simp only [ht, if_true]
      have : tableNamesOf ([] :: rest) = tableNamesOf rest := by simp [tableNamesOf]
      rw [this]
      exact ih _ _
    · simp only [ht, if_false]
      have hnames : tableNamesOf (t :: rest) = t :: tableNamesOf rest := by
        simp [tableNamesOf, ht]
      cases hg : env.sql2codeGenerate t with
      | error err =>
        simp only
        refine ⟨fun h => (by cases h), fun e h => ?_⟩
        have he : err = e := by simpa using h
        subst he
        refine ⟨[], t, tableNamesOf rest, (by rw [hnames]; rfl), ?_, Or.inl hg⟩
        simp [generatedTables, List.filterMap_append]
      | ok codes =>
        simp only
        cases hr : runGenDaoCommand env m
            (if count = 0 ∧ st.isIncludeInitDB = true then true else false) codes st.outPath with
        | error err =>
          simp only
          refine ⟨fun h => (by cases h), fun e h => ?_⟩
          have he : err = e := by simpa using h
          subst he
          refine ⟨[], t, tableNamesOf rest, (by rw [hnames]; rfl), ?_, Or.inr ⟨_, _, _, hg, hr⟩⟩
          simp [generatedTables, List.filterMap_append]
        | ok dir =>
          simp only
          have hstep : ∀ st1 : DaoState,
              st1.trace = st.trace ++ [DaoEvent.generate t, DaoEvent.runGenDaoCommand t
                (if count = 0 ∧ st.isIncludeInitDB = true then true else false) st.outPath] →
              generatedTables st1.trace = generatedTables st.trace ++ [t] := by
            intro st1 h1
            rw [h1]
            simp [generatedTables, List.filterMap_append]
          obtain ⟨ih1, ih2⟩ := ih (count + 1)
            { isIncludeInitDB := if count = 0 ∧ st.isIncludeInitDB = true then true else false,
              outPath := dir,
              trace := st.trace ++ [DaoEvent.generate t, DaoEvent.runGenDaoCommand t
                (if count = 0 ∧ st.isIncludeInitDB = true then true else false) st.outPath] }
          refine ⟨fun h => ?_, fun e h => ?_⟩
          · rw [ih1 h, hstep _ rfl, hnames]; simp
          · obtain ⟨pre, t2, post, hn, hgds, hf⟩ := ih2 e h
            refine ⟨t :: pre, t2, post, (by rw [hnames, hn]; rfl), ?_, hf⟩
            rw [hgds, hstep _ rfl]; simp

/-- C8 as stated fails.  For the list `t1,t2`, when `sql2code.Generate` fails
for `t1` the command returns that error and `t2`, a later non-empty name, is
never handed to `sql2code.Generate`. -/
theorem dao_failure_skips_later_tables :
    (DaoCommandRunE daoEnvFailT1 (str "micro") ⟨str "m", str "", str "t1,t2", false⟩).1 =
      some (Error.external (str "table t1 not found")) ∧
    generatedTables (DaoCommandRunE daoEnvFailT1 (str "micro")
      ⟨str "m", str "", str "t1,t2", false⟩).2.trace = [str "t1"] ∧
    tableNamesOf (splitComma (str "t1,t2")) = [str "t1", str "t2"] ∧
    generatedTables (DaoCommandRunE daoEnvFailT1 (str "micro")
      ⟨str "m", str "", str "t2", false⟩).2.trace = [str "t2"] := by
  decide

/-- C10 at the input `,t1` with include-init-db set, every generation
succeeding: the only table, `t1`, is the first non-empty name of the list, yet
`runGenDaoCommand` is called for it with `isIncludeInitDB = false`; no call
has it true.  For comparison, on `t1,t2` the first call has it true and the
second false. -/
theorem dao_leading_comma_drops_init_db :
    tableNamesOf (splitComma (str ",t1")) = [str "t1"] ∧
    (DaoCommandRunE daoEnvOk (str "micro") ⟨str "m", str "", str ",t1", true⟩).1 = none ∧
    runGenCalls (DaoCommandRunE daoEnvOk (str "micro")
      ⟨str "m", str "", str ",t1", true⟩).2.trace = [(str "t1", false)] ∧
    runGenCalls (DaoCommandRunE daoEnvOk (str "micro")
      ⟨str "m", str "", str "t1,t2", true⟩).2.trace = [(str "t1", true), (str "t2", false)] := by
  decide

/-! ## Occurrences inside longer identifiers -/

theorem ReplaceAll_of_absent (old new s : Bytes) (hold : old ≠ []) (h : ¬ old <:+: s) :
    ReplaceAll s old new = s := by
  rcases ReplaceAll_decompose old new hold s with ⟨_, heq⟩ | ⟨p, rest, hs, _, _⟩
  · exact heq
  · exfalso
    apply h
    rw [hs]
    exact ⟨p, rest, rfl⟩

/-- The first occurrence of `old` is replaced whatever stands before and
after it. -/
theorem ReplaceAll_at_first (old new a b : Bytes) (hold : old ≠ [])
    (h : ¬ old <:+: a ++ old.dropLast) :
    ReplaceAll (a ++ old ++ b) old new = a ++ new ++ ReplaceAll b old new := by
  induction a with
  | nil =>
    cases hold' : old with
    | nil => exact absurd hold' hold
    | cons o t =>
      have hp : (o :: t) <+: o :: (t ++ b) := ⟨b, by simp⟩
      have := ReplaceAll_cons_match (o :: t) new (by simp) o (t ++ b) hp
      simpa using this
  | cons c a ih =>
    have hnp : ¬ old <+: c :: (a ++ old ++ b) := by
      intro hp
      apply h
      have h1 : (c :: a ++ old.dropLast) <+: c :: (a ++ old ++ b) := by
        refine ⟨old.drop (old.length - 1) ++ b, ?_⟩
        have : old.dropLast ++ old.drop (old.length - 1) = old := by
          rw [List.dropLast_eq_take]; exact List.take_append_drop _ _
        simp only [List.cons_append, List.append_assoc]
        rw [← List.append_assoc old.dropLast, this]
      have hlen : old.length ≤ (c :: a ++ old.dropLast).length := by
        simp [List.length_dropLast]
        have : 0 < old.length := List.length_pos.2 hold
        omega
      exact (List.prefix_of_prefix_length_le hp h1 hlen).isInfix
    have hrec : ¬ old <:+: a ++ old.dropLast := by
      intro hin
      apply h
      exact hin.trans (List.infix_cons (List.infix_refl _))
    have e := ReplaceAll_cons_nomatch old new c (a ++ old ++ b) hnp
    simp only [List.cons_append] at e ⊢
    rw [e, ih hrec]

/-- C11 (amended).  `saveFile` replaces a placeholder token wherever it
occurs as a substring, whether or not it stands as a token of its own: in a
content `a ++ "moduleNameExample" ++ b`, where no occurrence begins inside
`a`, the occurrence is replaced by `moduleName` whatever bytes `a` ends with
and `b` begins with, and the later passes run over the result; likewise for
`serverNameExample` in a content without `moduleNameExample`. -/
theorem saveFile_replaces_substring
    (moduleName serverName out filePath pluginName a b : Bytes) (c : Bool) (w : World)
    (hm : moduleName ≠ []) (hs : serverName ≠ []) :
    (¬ str "moduleNameExample" <:+: a ++ (str "moduleNameExample").dropLast →
      writesOf (newEvents w (saveFile moduleName serverName out filePath
          (a ++ str "moduleNameExample" ++ b) c pluginName w).world) =
        [(destFile out filePath c (osMkdirAll out w),
          ReplaceAll
            (ReplaceAll
              (a ++ moduleName ++ ReplaceAll b (str "moduleNameExample") moduleName)
              (str "serverNameExample") serverName)
            (str "ServerNameExample") (firstLetterToUpper serverName))]) ∧
    (¬ str "moduleNameExample" <:+: a ++ str "serverNameExample" ++ b →
      ¬ str "serverNameExample" <:+: a ++ (str "serverNameExample").dropLast →
      writesOf (newEvents w (saveFile moduleName serverName out filePath
          (a ++ str "serverNameExample" ++ b) c pluginName w).world) =
        [(destFile out filePath c (osMkdirAll out w),
          ReplaceAll
            (a ++ serverName ++ ReplaceAll b (str "serverNameExample") serverName)
            (str "ServerNameExample") (firstLetterToUpper serverName))]) := by
  have n1 : str "moduleNameExample" ≠ [] := by decide
  have n2 : str "serverNameExample" ≠ [] := by decide
  have h3 : firstLetterToUpper (str "serverNameExample") = str "ServerNameExample" := by decide
  refine ⟨fun h => ?_, fun h1 h2 => ?_⟩
  · have hc : a ++ str "moduleNameExample" ++ b ≠ [] := by
      intro e
      have := congrArg List.length e
      simp [str] at this
    rw [saveFile_nonempty _ _ _ _ _ _ _ _ hc hm hs, osWriteFile_newEvents, writesOf_mkdir_write]
    unfold substitute
    simp only
    rw [ReplaceAll_at_first _ _ _ _ n1 h, h3]
  · have hc : a ++ str "serverNameExample" ++ b ≠ [] := by
      intro e
      have := congrArg List.length e
      simp [str] at this
    rw [saveFile_nonempty _ _ _ _ _ _ _ _ hc hm hs, osWriteFile_newEvents, writesOf_mkdir_write]
    unfold substitute
    simp only
    rw [ReplaceAll_of_absent _ _ _ n1 h1, ReplaceAll_at_first _ _ _ _ n2 h2, h3]

/-- Witness of C11 (amended): `moduleNameExample` between `my` and `s`. -/
theorem saveFile_replaces_substring_witness :
    writesOf (newEvents ⟨fsEmptyOut, noon2024, []⟩
      (saveFile (str "bar") (str "user") (str "out") (str "a/x.go")
        (str "my" ++ str "moduleNameExample" ++ str "s") false (str "handler")
        ⟨fsEmptyOut, noon2024, []⟩).world) =
      [(destFile (str "out") (str "a/x.go") false
          (osMkdirAll (str "out") ⟨fsEmptyOut, noon2024, []⟩),
        ReplaceAll
          (ReplaceAll
            (str "my" ++ str "bar" ++ ReplaceAll (str "s") (str "moduleNameExample") (str "bar"))
            (str "serverNameExample") (str "user"))
          (str "ServerNameExample") (firstLetterToUpper (str "user")))] :=
  (saveFile_replaces_substring (str "bar") (str "user") (str "out") (str "a/x.go")
    (str "handler") (str "my") (str "s") false ⟨fsEmptyOut, noon2024, []⟩
    (by decide) (by decide)).1 (by decide)

/-- C11 as stated fails.  In the content
`myserverNameExampleConfig moduleNameExamples` both tokens are substrings of
longer identifiers; the bytes written are `myuserConfig bars`: neither
occurrence is left unchanged. -/
theorem saveFile_rewrites_longer_identifier :
    writesOf (newEvents ⟨fsEmptyOut, noon2024, []⟩
      (saveFile (str "bar") (str "user") (str "out") (str "a/x.go")
        (str "myserverNameExampleConfig moduleNameExamples") false (str "handler")
        ⟨fsEmptyOut, noon2024, []⟩).world) =
      [(str "out/x.go", str "myuserConfig bars")] ∧
    ¬ str "serverNameExample" <:+: str "myuserConfig bars" ∧
    ¬ str "moduleNameExample" <:+: str "myuserConfig bars" := by
  decide

/-! ## The three passes -/

theorem specReplaceEveryFuel_eq (tok value : Bytes) (htok : tok ≠ []) :
    ∀ (fuel : Nat) (s : Bytes), s.length ≤ fuel →
      specReplaceEveryFuel tok value fuel s = ReplaceAll s tok value := by
  intro fuel
  induction fuel with
  | zero =>
    intro s hs
    have : s = [] := List.eq_nil_of_length_eq_zero (by omega)
    subst this
    rw [ReplaceAll_nil tok value htok]; rfl
  | succ fuel ih =>
    intro s hs
    cases s with
    | nil => rw [ReplaceAll_nil tok value htok]; rfl
    | cons c cs =>
      unfold specReplaceEveryFuel
      by_cases hp : tok <+: c :: cs
      · simp only [hp, if_true]
        rw [ReplaceAll_cons_match tok value htok c cs hp, ih]
        have : 0 < tok.length := List.length_pos.2 htok
        simp only [List.length_drop, List.length_cons] at hs ⊢
        omega
      · simp only [hp, if_false]
        rw [ReplaceAll_cons_nomatch tok value c cs hp, ih]
        simpa using hs

/-- One pass of the source is one pass of the specification. -/
theorem ReplaceAll_eq_spec (s tok value : Bytes) (htok : tok ≠ []) :
    ReplaceAll s tok value = specReplaceEvery tok value s :=
  (specReplaceEveryFuel_eq tok value htok s.length s le_rfl).symm

/-- On a name whose first byte is ASCII, `firstLetterToUpper` upper-cases the
first letter. -/
theorem firstLetterToUpper_eq_spec (s : Bytes) (h : ∀ b ∈ s.head?, b < 128) :
    firstLetterToUpper s = specUpperFirstLetter s := by
  cases s with
  | nil => rfl
  | cons b rest =>
    have hb : b < 128 := h b (by simp)
    cases rest with
    | nil =>
      unfold firstLetterToUpper toUpperByte specUpperFirstLetter
      by_cases h1 : 97 ≤ b ∧ b ≤ 122
      · simp [h1]
      · simp [h1, hb]
    | cons b2 rest =>
      unfold firstLetterToUpper toUpperByte specUpperFirstLetter
      by_cases h1 : 97 ≤ b ∧ b ≤ 122
      · simp [h1]
      · have h2 : ¬ (b = 195 ∧ 160 ≤ b2 ∧ b2 ≤ 190 ∧ b2 ≠ 183) := by
          intro h; omega
        simp only [h1, hb, h2, if_false, if_true, List.singleton_append]

/-- The substitution of the source is the three passes of the specification,
for a server name whose first byte is ASCII. -/
theorem substitute_eq_spec (moduleName serverName content : Bytes)
    (h : ∀ b ∈ serverName.head?, b < 128) :
    substitute moduleName serverName content = specThreePasses moduleName serverName content := by
  unfold substitute specThreePasses
  simp only
  rw [ReplaceAll_eq_spec _ _ _ (by decide), ReplaceAll_eq_spec _ _ _ (by decide),
    ReplaceAll_eq_spec _ _ _ (by decide), firstLetterToUpper_eq_spec serverName h]
  rfl

/-- The value the last pass inserts is written as it is. -/
theorem substitute_last_token (moduleName serverName : Bytes) :
    substitute moduleName serverName (str "ServerNameExample") =
      firstLetterToUpper serverName := by
  unfold substitute
  simp only
  have h3 : firstLetterToUpper (str "serverNameExample") = str "ServerNameExample" := by decide
  rw [ReplaceAll_of_absent (str "moduleNameExample") moduleName (str "ServerNameExample")
      (by decide) (by decide),
    ReplaceAll_of_absent (str "serverNameExample") serverName (str "ServerNameExample")
      (by decide) (by decide), h3]
  have := ReplaceAll_at_first (str "ServerNameExample") (firstLetterToUpper serverName) [] []
    (by decide) (by decide)
  simp only [List.nil_append, List.append_nil] at this
  rw [this, ReplaceAll_nil _ _ (by decide)]
  simp

/-- The value the second pass inserts is read by the third pass only. -/
theorem substitute_second_token (moduleName serverName : Bytes) :
    substitute moduleName serverName (str "serverNameExample") =
      ReplaceAll serverName (str "ServerNameExample") (firstLetterToUpper serverName) := by
  unfold substitute
  simp only
  have h3 : firstLetterToUpper (str "serverNameExample") = str "ServerNameExample" := by decide
  rw [ReplaceAll_of_absent (str "moduleNameExample") moduleName (str "serverNameExample")
      (by decide) (by decide), h3]
  have := ReplaceAll_at_first (str "serverNameExample") serverName [] [] (by decide) (by decide)
  simp only [List.nil_append, List.append_nil] at this
  rw [this, ReplaceAll_nil _ _ (by decide)]
  simp

/-- The three passes for a server name that begins with an ASCII byte.  For
every content, non-empty `moduleName` and such a non-empty `serverName`, the
bytes `saveFile` writes are the result of three substitution passes
applied once each, in this order: every `moduleNameExample` replaced by
`moduleName`, then every `serverNameExample` replaced by `serverName`, then
every `ServerNameExample` replaced by `serverName` with its first letter
upper-cased.  They are a function of `(content, moduleName, serverName)`
alone: another call with the same three values writes the same bytes, whatever
its directory, file name, plugin, cover flag, file system and clock.  No pass
is repeated: the name the second pass puts for `serverNameExample` is read by
the third pass only, and the name the third pass puts for `ServerNameExample`
is written as it is, whatever tokens they contain. -/
theorem saveFile_three_passes
    (moduleName serverName out filePath content pluginName : Bytes) (c : Bool) (w : World)
    (hm : moduleName ≠ []) (hs : serverName ≠ []) (hascii : ∀ b ∈ serverName.head?, b < 128) :
    (content ≠ [] →
      writesOf (newEvents w
          (saveFile moduleName serverName out filePath content c pluginName w).world) =
        [(destFile out filePath c (osMkdirAll out w),
          specThreePasses moduleName serverName content)]) ∧
    (∀ pd ∈ writesOf (newEvents w
        (saveFile moduleName serverName out filePath content c pluginName w).world),
      pd.2 = specThreePasses moduleName serverName content) ∧
    (∀ (out2 filePath2 pluginName2 : Bytes) (c2 : Bool) (w2 : World),
      ∀ pd ∈ writesOf (newEvents w
        (saveFile moduleName serverName out filePath content c pluginName w).world),
      ∀ pd2 ∈ writesOf (newEvents w2
        (saveFile moduleName serverName out2 filePath2 content c2 pluginName2 w2).world),
      pd.2 = pd2.2) ∧
    writesOf (newEvents w (saveFile moduleName serverName out filePath
        (str "serverNameExample") c pluginName w).world) =
      [(destFile out filePath c (osMkdirAll out w),
        specReplaceEvery (str "ServerNameExample") (specUpperFirstLetter serverName)
          serverName)] ∧
    writesOf (newEvents w (saveFile moduleName serverName out filePath
        (str "ServerNameExample") c pluginName w).world) =
      [(destFile out filePath c (osMkdirAll out w), specUpperFirstLetter serverName)] := by
  have hall : ∀ (out filePath content pluginName : Bytes) (c : Bool) (w : World),
      ∀ pd ∈ writesOf (newEvents w
        (saveFile moduleName serverName out filePath content c pluginName w).world),
      pd.2 = specThreePasses moduleName serverName content := by
    intro out filePath content pluginName c w pd hpd
    rcases saveFile_cases moduleName serverName out filePath content pluginName c w with h | h
    · rw [h, newEvents_self] at hpd
      simp [writesOf] at hpd
    · rw [h.2.2.2, osWriteFile_newEvents, writesOf_mkdir_write] at hpd
      simp only [List.mem_singleton] at hpd
      subst hpd
      exact substitute_eq_spec moduleName serverName content hascii
  have hone : ∀ content : Bytes, content ≠ [] →
      writesOf (newEvents w
          (saveFile moduleName serverName out filePath content c pluginName w).world) =
        [(destFile out filePath c (osMkdirAll out w),
          substitute moduleName serverName content)] := by
    intro content hc
    rw [saveFile_nonempty _ _ _ _ _ _ _ _ hc hm hs, osWriteFile_newEvents, writesOf_mkdir_write]
  refine ⟨fun hc => ?_, hall out filePath content pluginName c w, ?_, ?_, ?_⟩
  · rw [hone content hc, substitute_eq_spec moduleName serverName content hascii]
  · intro out2 filePath2 pluginName2 c2 w2 pd hpd pd2 hpd2
    rw [hall _ _ _ _ _ _ pd hpd, hall _ _ _ _ _ _ pd2 hpd2]
  · rw [hone _ (by decide), substitute_second_token,
      ReplaceAll_eq_spec _ _ _ (by decide), firstLetterToUpper_eq_spec serverName hascii]
  · rw [hone _ (by decide), substitute_last_token,
      firstLetterToUpper_eq_spec serverName hascii]

/-- The three passes at module `bar`, server `user`. -/
theorem saveFile_three_passes_witness :
    writesOf (newEvents ⟨fsEmptyOut, noon2024, []⟩
      (saveFile (str "bar") (str "user") (str "out") (str "a/x.go")
        (str "ServerNameExample") false (str "handler")
        ⟨fsEmptyOut, noon2024, []⟩).world) =
      [(destFile (str "out") (str "a/x.go") false
          (osMkdirAll (str "out") ⟨fsEmptyOut, noon2024, []⟩),
        specUpperFirstLetter (str "user"))] ∧
    specUpperFirstLetter (str "user") = str "User" :=
  ⟨(saveFile_three_passes (str "bar") (str "user") (str "out") (str "a/x.go")
      (str "ServerNameExample")
      (str "handler") false ⟨fsEmptyOut, noon2024, []⟩ (by decide) (by decide)
      (by decide)).2.2.2.2,
   by decide⟩

/-- C12.  The code departs from the three passes of the specification for a
server name whose first letter is not ASCII: `firstLetterToUpper` hands the
first byte `s[:1]`, not the first letter, to `strings.ToUpper`.  For
`日本`, whose first letter has no upper case, the third pass of the
specification puts the name itself, while the bytes written begin with U+FFFD
(EF BF BD) followed by the rest of the cut letter; for `élan` the
specification puts `Élan` (C3 89 ...), the bytes written again begin with
U+FFFD. -/
theorem saveFile_non_ascii_first_letter :
    writesOf (newEvents ⟨fsEmptyOut, noon2024, []⟩
      (saveFile (str "m") nihon (str "out") (str "a/x.go") (str "ServerNameExample") false
        (str "handler") ⟨fsEmptyOut, noon2024, []⟩).world) =
      [(str "out/x.go", [239, 191, 189, 151, 165, 230, 156, 172])] ∧
    specThreePasses (str "m") nihon (str "ServerNameExample") =
      [230, 151, 165, 230, 156, 172] ∧
    writesOf (newEvents ⟨fsEmptyOut, noon2024, []⟩
      (saveFile (str "m") elan (str "out") (str "a/x.go") (str "ServerNameExample") false
        (str "handler") ⟨fsEmptyOut, noon2024, []⟩).world) =
      [(str "out/x.go", [239, 191, 189, 169, 108, 97, 110])] ∧
    specThreePasses (str "m") elan (str "ServerNameExample") = [195, 137, 108, 97, 110] ∧
    writesOf (newEvents ⟨fsEmptyOut, noon2024, []⟩
      (saveFile (str "m") nihon (str "out") (str "a/x.go") (str "ServerNameExample") false
        (str "handler") ⟨fsEmptyOut, noon2024, []⟩).world) ≠
      [(str "out/x.go", specThreePasses (str "m") nihon (str "ServerNameExample"))] := by
  decide

/-! ## Where a save writes -/

theorem inodeOf_eq_some (fs : FS) (p : Bytes) (ino : Nat) :
    fs.inodeOf p = some ino ↔ ∃ loc, resolve fs true p = .ok (.file loc ino) := by
  unfold FS.inodeOf
  cases hr : resolve fs true p with
  | error e => simp
  | ok r => cases r <;> simp

theorem readFile_of_inodeOf (fs : FS) (p : Bytes) (ino : Nat) (h : fs.inodeOf p = some ino) :
    fs.readFile p = some (fs.content ino) := by
  obtain ⟨loc, hr⟩ := (inodeOf_eq_some fs p ino).1 h
  exact readFile_of_resolve fs p loc ino hr

/-- The destination when covering is not allowed, by what `os.Stat` says
after the directory creation. -/
theorem destFile_by_stat (out filePath : Bytes) (w : World) :
    (destFile out filePath false (osMkdirAll out w) = out ++ str "/" ++ (Split filePath).2 ∧
      Stat (osMkdirAll out w).fs (out ++ str "/" ++ (Split filePath).2) = .error .ENOENT) ∨
    (destFile out filePath false (osMkdirAll out w) =
        out ++ str "/" ++ (Split filePath).2 ++ (str ".gen" ++ formatCompact w.now) ∧
      Stat (osMkdirAll out w).fs (out ++ str "/" ++ (Split filePath).2) ≠ .error .ENOENT) := by
  rw [destFile_eq]
  cases hx : isExists (osMkdirAll out w).fs (out ++ str "/" ++ (Split filePath).2) with
  | false => left; exact ⟨by simp, (isExists_eq_false _ _).1 hx⟩
  | true =>
    right
    refine ⟨by simp, fun h => ?_⟩
    rw [(isExists_eq_false _ _).2 h] at hx
    cases hx

/-- A path that leads to a regular file before the directory creation leads
to it afterwards. -/
theorem resolve_after_mkdir (out k : Bytes) (w : World) (loc : Loc) (ino : Nat)
    (h : resolve w.fs true k = .ok (.file loc ino)) :
    resolve (osMkdirAll out w).fs true k = .ok (.file loc ino) :=
  resolve_extends (MkdirAll_extends w.fs out).1 true k _ h rfl

/-- The core of both save functions when covering is not allowed.  The write
goes to the plain path, which `os.Stat` found missing, or to the stamped
sibling; every regular file keeps its bytes unless the sibling path leads to
it; a write that reports no error has stored the data at the destination. -/
theorem save_core (out filePath data : Bytes) (w : World) :
    (destFile out filePath false (osMkdirAll out w) = out ++ str "/" ++ (Split filePath).2 ∧
        Stat (osMkdirAll out w).fs (out ++ str "/" ++ (Split filePath).2) = .error .ENOENT ∨
      destFile out filePath false (osMkdirAll out w) =
        out ++ str "/" ++ (Split filePath).2 ++ (str ".gen" ++ formatCompact w.now)) ∧
    (∀ (k : Bytes) (loc : Loc) (ino : Nat), resolve w.fs true k = .ok (.file loc ino) →
      (∀ loc2, resolve (osMkdirAll out w).fs true
        (out ++ str "/" ++ (Split filePath).2 ++ (str ".gen" ++ formatCompact w.now))
          ≠ .ok (.file loc2 ino)) →
      (osWriteFile (destFile out filePath false (osMkdirAll out w)) data
        (osMkdirAll out w)).world.fs.readFile k = w.fs.readFile k) ∧
    ((osWriteFile (destFile out filePath false (osMkdirAll out w)) data
        (osMkdirAll out w)).returned = some none →
      (osWriteFile (destFile out filePath false (osMkdirAll out w)) data
        (osMkdirAll out w)).world.fs.readFile
          (destFile out filePath false (osMkdirAll out w)) = some data) := by
  refine ⟨?_, ?_, ?_⟩
  · rcases destFile_by_stat out filePath w with h | h
    · left; exact h
    · right; exact h.1
  · intro k loc ino hk hne
    have hk1 := resolve_after_mkdir out k w loc ino hk
    have hread : (osMkdirAll out w).fs.readFile k = w.fs.readFile k := by
      show (MkdirAll w.fs out).1.readFile k = _
      rw [MkdirAll_readFile w.fs out k _ (readFile_of_resolve w.fs k loc ino hk),
        readFile_of_resolve w.fs k loc ino hk]
    show (WriteFile (osMkdirAll out w).fs _ data).1.readFile k = _
    rw [← hread]
    apply WriteFile_frame _ _ _ _ loc ino hk1
    intro loc2
    rcases destFile_by_stat out filePath w with h | h
    · rw [h.1]; exact Stat_enoent_not_file _ _ h.2 loc2 ino
    · rw [h.1]; exact hne loc2
  · intro hr
    show (WriteFile (osMkdirAll out w).fs _ data).1.readFile _ = some data
    apply WriteFile_ok_readFile
    have : (osWriteFile (destFile out filePath false (osMkdirAll out w)) data
        (osMkdirAll out w)).returned = some (WriteFile (osMkdirAll out w).fs
        (destFile out filePath false (osMkdirAll out w)) data).2 := rfl
    rw [this] at hr
    simpa using hr

/-- The destination when the plain path leads to a regular file: the stamped
sibling. -/
theorem destFile_of_file (out filePath : Bytes) (w : World) (loc : Loc) (ino : Nat)
    (hex : resolve w.fs true (out ++ str "/" ++ (Split filePath).2) = .ok (.file loc ino)) :
    destFile out filePath false (osMkdirAll out w) =
      out ++ str "/" ++ (Split filePath).2 ++ (str ".gen" ++ formatCompact w.now) := by
  rcases destFile_by_stat out filePath w with h | h
  · exfalso
    exact Stat_enoent_not_file _ _ h.2 loc ino (resolve_after_mkdir out _ w loc ino hex)
  · exact h.1

/-- C1 (amended).  When `out/<base name>` already leads to a regular file and
the call may not cover it (`isNeedCovered = false`), `saveFile` and
`saveFileSimple` write to no path but the sibling
`out/<base name>.gen<timestamp>`, which is a different path.  The bytes stored
at `out/<base name>` stay as they were unless, at the time of the write, the
sibling path leads to that same file (a link to it).  A call with content
(and, for `saveFile`, with both identifiers) makes exactly one write, to the
sibling; when that write reports no error the sibling holds the new content
(for `saveFile`: the content after the substitutions). -/
theorem saveFile_keeps_existing_file
    (moduleName serverName out filePath content pluginName : Bytes) (w : World) (ino : Nat)
    (hex0 : w.fs.inodeOf (out ++ str "/" ++ (Split filePath).2) = some ino) :
    (out ++ str "/" ++ (Split filePath).2 ++ (str ".gen" ++ formatCompact w.now)
        ≠ out ++ str "/" ++ (Split filePath).2) ∧
    (∀ pd ∈ writesOf (newEvents w
        (saveFile moduleName serverName out filePath content false pluginName w).world),
      pd.1 = out ++ str "/" ++ (Split filePath).2 ++ (str ".gen" ++ formatCompact w.now)) ∧
    (∀ pd ∈ writesOf (newEvents w (saveFileSimple out filePath content false w).world),
      pd.1 = out ++ str "/" ++ (Split filePath).2 ++ (str ".gen" ++ formatCompact w.now)) ∧
    ((osMkdirAll out w).fs.inodeOf
        (out ++ str "/" ++ (Split filePath).2 ++ (str ".gen" ++ formatCompact w.now))
          ≠ some ino →
      (saveFile moduleName serverName out filePath content false pluginName w).world.fs.readFile
          (out ++ str "/" ++ (Split filePath).2) = some (w.fs.content ino) ∧
      (saveFileSimple out filePath content false w).world.fs.readFile
          (out ++ str "/" ++ (Split filePath).2) = some (w.fs.content ino)) ∧
    (content ≠ [] → moduleName ≠ [] → serverName ≠ [] →
      writesOf (newEvents w
          (saveFile moduleName serverName out filePath content false pluginName w).world) =
        [(out ++ str "/" ++ (Split filePath).2 ++ (str ".gen" ++ formatCompact w.now),
          substitute moduleName serverName content)] ∧
      ((saveFile moduleName serverName out filePath content false pluginName w).returned
          = some none →
        (saveFile moduleName serverName out filePath content false pluginName w).world.fs.readFile
          (out ++ str "/" ++ (Split filePath).2 ++ (str ".gen" ++ formatCompact w.now)) =
          some (substitute moduleName serverName content))) ∧
    (content ≠ [] →
      writesOf (newEvents w (saveFileSimple out filePath content false w).world) =
        [(out ++ str "/" ++ (Split filePath).2 ++ (str ".gen" ++ formatCompact w.now),
          content)] ∧
      ((saveFileSimple out filePath content false w).returned = some none →
        (saveFileSimple out filePath content false w).world.fs.readFile
          (out ++ str "/" ++ (Split filePath).2 ++ (str ".gen" ++ formatCompact w.now)) =
          some content)) := by
  have hne : out ++ str "/" ++ (Split filePath).2 ++ (str ".gen" ++ formatCompact w.now)
      ≠ out ++ str "/" ++ (Split filePath).2 := by
    intro h
    have : str ".gen" ++ formatCompact w.now = [] := List.append_right_eq_self.1 h
    simp [str] at this
  obtain ⟨loc, hex⟩ := (inodeOf_eq_some _ _ _).1 hex0
  have hd := destFile_of_file out filePath w loc ino hex
  have hold := readFile_of_resolve w.fs _ loc ino hex
  -- what one write of `data` does
  have key : ∀ data : Bytes,
      newEvents w (osWriteFile (destFile out filePath false (osMkdirAll out w)) data
        (osMkdirAll out w)).world =
        [Event.mkdirAll out, Event.writeFile
          (out ++ str "/" ++ (Split filePath).2 ++ (str ".gen" ++ formatCompact w.now)) data] ∧
      ((∀ loc2, resolve (osMkdirAll out w).fs true
        (out ++ str "/" ++ (Split filePath).2 ++ (str ".gen" ++ formatCompact w.now))
          ≠ .ok (.file loc2 ino)) →
        (osWriteFile (destFile out filePath false (osMkdirAll out w)) data
          (osMkdirAll out w)).world.fs.readFile (out ++ str "/" ++ (Split filePath).2) =
          some (w.fs.content ino)) ∧
      ((osWriteFile (destFile out filePath false (osMkdirAll out w)) data
          (osMkdirAll out w)).returned = some none →
        (osWriteFile (destFile out filePath false (osMkdirAll out w)) data
          (osMkdirAll out w)).world.fs.readFile
          (out ++ str "/" ++ (Split filePath).2 ++ (str ".gen" ++ formatCompact w.now)) =
          some data) := by
    intro data
    obtain ⟨_, hframe, hok⟩ := save_core out filePath data w
    refine ⟨?_, ?_, ?_⟩
    · rw [osWriteFile_newEvents, hd]
    · intro hlink
      rw [hframe _ loc ino hex hlink, hold]
    · intro hr
      have := hok hr
      rw [hd] at this
      rw [hd]
      exact this
  refine ⟨hne, ?_, ?_, ?_, ?_, ?_⟩
  · intro pd hpd
    rcases saveFile_cases moduleName serverName out filePath content pluginName false w with h | h
    · rw [h, newEvents_self] at hpd; simp [writesOf] at hpd
    · rw [h.2.2.2, (key _).1, writesOf_mkdir_write] at hpd
      simp only [List.mem_singleton] at hpd
      rw [hpd]
  · intro pd hpd
    by_cases hc : content = []
    · subst hc
      simp [saveFileSimple, Outcome.world, newEvents_self, writesOf] at hpd
    · rw [saveFileSimple_nonempty _ _ _ _ _ hc, (key _).1, writesOf_mkdir_write] at hpd
      simp only [List.mem_singleton] at hpd
      rw [hpd]
  · intro hlink0
    have hlink : ∀ loc2, resolve (osMkdirAll out w).fs true
        (out ++ str "/" ++ (Split filePath).2 ++ (str ".gen" ++ formatCompact w.now))
          ≠ .ok (.file loc2 ino) :=
      fun loc2 h => hlink0 ((inodeOf_eq_some _ _ _).2 ⟨loc2, h⟩)
    refine ⟨?_, ?_⟩
    · rcases saveFile_cases moduleName serverName out filePath content pluginName false w
        with h | h
      · rw [h]; exact hold
      · rw [h.2.2.2]; exact (key _).2.1 hlink
    · by_cases hc : content = []
      · subst hc; simpa [saveFileSimple, Outcome.world] using hold
      · rw [saveFileSimple_nonempty _ _ _ _ _ hc]; exact (key _).2.1 hlink
  · intro hc hm hs
    rw [saveFile_nonempty _ _ _ _ _ _ _ _ hc hm hs]
    refine ⟨?_, (key _).2.2⟩
    rw [(key _).1, writesOf_mkdir_write]
  · intro hc
    rw [saveFileSimple_nonempty _ _ _ _ _ hc]
    refine ⟨?_, (key _).2.2⟩
    rw [(key _).1, writesOf_mkdir_write]

/-- Witness of C1 (amended): `out/x.go` holds `old`; after saving new content
for `a/x.go` into `out` the only write went to the stamped sibling. -/
theorem saveFile_keeps_existing_file_witness :
    fsWithFile.inodeOf (str "out" ++ str "/" ++ (Split (str "a/x.go")).2) = some 1 ∧
    writesOf (newEvents ⟨fsWithFile, noon2024, []⟩
      (saveFileSimple (str "out") (str "a/x.go") (str "new") false
        ⟨fsWithFile, noon2024, []⟩).world) =
      [(str "out" ++ str "/" ++ (Split (str "a/x.go")).2 ++
          (str ".gen" ++ formatCompact noon2024), str "new")] :=
  ⟨by decide,
   ((saveFile_keeps_existing_file (str "m") (str "s") (str "out") (str "a/x.go") (str "new")
      (str "handler") ⟨fsWithFile, noon2024, []⟩ 1
      (by decide)).2.2.2.2.2 (by decide)).1⟩

/-- C1 as stated fails.  In a tree where the stamped sibling is a symbolic
link to `out/x.go`, saving new content writes through the link and the bytes
at `out/x.go` become `new`.  In a tree where the stamped sibling is a
directory the write fails and the new content is stored nowhere. -/
theorem saveFileSimple_linked_or_blocked_sibling :
    (fsLinkedSibling.readFile (str "out/x.go") = some (str "old") ∧
      (saveFileSimple (str "out") (str "a/x.go") (str "new") false
        ⟨fsLinkedSibling, noon2024, []⟩).world.fs.readFile (str "out/x.go") =
          some (str "new")) ∧
    (fsBlockedSibling.readFile (str "out/x.go") = some (str "old") ∧
      (saveFileSimple (str "out") (str "a/x.go") (str "new") false
        ⟨fsBlockedSibling, noon2024, []⟩).returned =
          some (some (Error.pathError "open" (str "out/x.go.gen20240101T120000")
            Errno.EISDIR)) ∧
      (saveFileSimple (str "out") (str "a/x.go") (str "new") false
        ⟨fsBlockedSibling, noon2024, []⟩).world.fs.readFile
          (str "out/x.go.gen20240101T120000") = none ∧
      (saveFileSimple (str "out") (str "a/x.go") (str "new") false
        ⟨fsBlockedSibling, noon2024, []⟩).world.fs.nodes = fsBlockedSibling.nodes) := by
  decide

theorem destFile_eq_stat (out filePath : Bytes) (c : Bool) (w : World) :
    destFile out filePath c (osMkdirAll out w) =
      if c = true ∨
          Stat (osMkdirAll out w).fs (out ++ str "/" ++ (Split filePath).2) = .error .ENOENT
      then out ++ str "/" ++ (Split filePath).2
      else out ++ str "/" ++ (Split filePath).2 ++ (str ".gen" ++ formatCompact w.now) := by
  rw [destFile_eq]
  by_cases h : Stat (osMkdirAll out w).fs (out ++ str "/" ++ (Split filePath).2)
      = .error .ENOENT
  · rw [if_pos (Or.inr ((isExists_eq_false _ _).2 h)), if_pos (Or.inr h)]
  · have hx : ¬ isExists (osMkdirAll out w).fs (out ++ str "/" ++ (Split filePath).2) = false :=
      fun e => h ((isExists_eq_false _ _).1 e)
    cases c with
    | true => rw [if_pos (Or.inl rfl), if_pos (Or.inl rfl)]
    | false =>
      rw [if_neg (by rintro (e | e); exact Bool.noConfusion e; exact hx e),
        if_neg (by rintro (e | e); exact Bool.noConfusion e; exact h e)]

/-- C2 (amended).  With non-empty content, `saveFileSimple`, and `saveFile`
with non-empty identifiers, make exactly one write.  Its path is
`out + "/" + base(filePath)` when `isNeedCovered` is true or `os.Stat`, asked
after the directory creation, fails with "does not exist" for that path; in
every other case (the path leads to a file or a directory, or `os.Stat` fails
for another reason, such as a parent that is no directory) it is that path
followed by `.gen` and the timestamp of the clock, the 15 characters
YYYYMMDDThhmmss: eight digits, the letter T, six digits.  A path that led to
a regular file or to a directory before the call is found present; a name
that was missing in the existing directory `out` is found missing. -/
theorem saveFile_destination
    (moduleName serverName out filePath content pluginName : Bytes) (c : Bool) (w : World)
    (hc : content ≠ []) :
    writesOf (newEvents w (saveFileSimple out filePath content c w).world) =
      [(if c = true ∨
            Stat (osMkdirAll out w).fs (out ++ str "/" ++ (Split filePath).2) = .error .ENOENT
        then out ++ str "/" ++ (Split filePath).2
        else out ++ str "/" ++ (Split filePath).2 ++ (str ".gen" ++ formatCompact w.now),
        content)] ∧
    (moduleName ≠ [] → serverName ≠ [] →
      writesOf (newEvents w
          (saveFile moduleName serverName out filePath content c pluginName w).world) =
        [(if c = true ∨
              Stat (osMkdirAll out w).fs (out ++ str "/" ++ (Split filePath).2) = .error .ENOENT
          then out ++ str "/" ++ (Split filePath).2
          else out ++ str "/" ++ (Split filePath).2 ++ (str ".gen" ++ formatCompact w.now),
          substitute moduleName serverName content)]) ∧
    formatCompact w.now =
      [48 + w.now.year / 1000, 48 + w.now.year / 100 % 10, 48 + w.now.year / 10 % 10,
       48 + w.now.year % 10,
       48 + w.now.month / 10, 48 + w.now.month % 10, 48 + w.now.day / 10, 48 + w.now.day % 10,
       84,
       48 + w.now.hour / 10, 48 + w.now.hour % 10, 48 + w.now.minute / 10,
       48 + w.now.minute % 10, 48 + w.now.second / 10, 48 + w.now.second % 10] ∧
    (formatCompact w.now).length = 15 ∧
    (∀ loc ino, resolve w.fs true (out ++ str "/" ++ (Split filePath).2) = .ok (.file loc ino) →
      Stat (osMkdirAll out w).fs (out ++ str "/" ++ (Split filePath).2) = .ok ⟨false⟩) ∧
    (∀ loc, resolve w.fs true (out ++ str "/" ++ (Split filePath).2) = .ok (.dir loc) →
      Stat (osMkdirAll out w).fs (out ++ str "/" ++ (Split filePath).2) = .ok ⟨true⟩) ∧
    (Stat w.fs out = .ok ⟨true⟩ →
      ∀ par nm, resolve w.fs true (out ++ str "/" ++ (Split filePath).2) = .ok (.absent par nm) →
      Stat (osMkdirAll out w).fs (out ++ str "/" ++ (Split filePath).2) = .error .ENOENT) := by
  refine ⟨?_, ?_, formatCompact_digits w.now w.now.year_ok, ?_, ?_, ?_, ?_⟩
  · rw [saveFileSimple_nonempty _ _ _ _ _ hc, osWriteFile_newEvents, writesOf_mkdir_write,
      destFile_eq_stat]
  · intro hm hs
    rw [saveFile_nonempty _ _ _ _ _ _ _ _ hc hm hs, osWriteFile_newEvents, writesOf_mkdir_write,
      destFile_eq_stat]
  · rw [formatCompact_digits w.now w.now.year_ok]; rfl
  · intro loc ino h
    exact Stat_of_file _ _ loc ino (resolve_after_mkdir out _ w loc ino h)
  · intro loc h
    exact Stat_of_dir _ _ loc
      (resolve_extends (MkdirAll_extends w.fs out).1 true _ _ h rfl)
  · intro hout par nm h
    have : (osMkdirAll out w).fs = w.fs := MkdirAll_of_dir w.fs out hout
    rw [this]
    exact Stat_of_absent _ _ par nm h

/-- Witness of C2 (amended): at noon of 1 January 2024 new content for the
existing `out/x.go` goes to `out/x.go.gen20240101T120000`, new content for the
missing `out/y.go` goes to `out/y.go`. -/
theorem saveFile_destination_witness :
    writesOf (newEvents ⟨fsWithFile, noon2024, []⟩
        (saveFileSimple (str "out") (str "a/x.go") (str "new") false
          ⟨fsWithFile, noon2024, []⟩).world) =
      [(str "out/x.go.gen20240101T120000", str "new")] ∧
    writesOf (newEvents ⟨fsWithFile, noon2024, []⟩
        (saveFileSimple (str "out") (str "a/y.go") (str "new") false
          ⟨fsWithFile, noon2024, []⟩).world) =
      [(str "out/y.go", str "new")] ∧
    (formatCompact noon2024).length = 15 :=
  ⟨by decide, by decide,
   (saveFile_destination (str "m") (str "s") (str "out") (str "a/x.go") (str "new")
      (str "handler") false ⟨fsWithFile, noon2024, []⟩ (by decide)).2.2.2.1⟩

/-- C2 as stated fails.  Where `out` is a regular file the path `out/x.go`
does not exist (`os.Stat` fails with "not a directory", no file can be read
there) and `isNeedCovered` is false, yet the path handed to `os.WriteFile` is
not `out/x.go` but `out/x.go.gen20240101T120000`. -/
theorem saveFileSimple_parent_not_directory :
    Stat fsOutIsFile (str "out/x.go") = .error .ENOTDIR ∧
    fsOutIsFile.readFile (str "out/x.go") = none ∧
    writesOf (newEvents ⟨fsOutIsFile, noon2024, []⟩
        (saveFileSimple (str "out") (str "a/x.go") (str "new") false
          ⟨fsOutIsFile, noon2024, []⟩).world) =
      [(str "out/x.go.gen20240101T120000", str "new")] ∧
    (saveFileSimple (str "out") (str "a/x.go") (str "new") false
      ⟨fsOutIsFile, noon2024, []⟩).returned =
        some (some (Error.pathError "open" (str "out/x.go.gen20240101T120000")
          Errno.ENOTDIR)) := by
  decide

/-- C9 (amended).  For every file-system state and every call of `saveFile`
or `saveFileSimple` with `isNeedCovered = false`: a write of the call goes
either to `out/<base name>`, which `os.Stat` found missing (no file could be
read there before the call), or to the sibling
`out/<base name>.gen<timestamp>`, which is not checked; every regular file
that existed before the call keeps its bytes unless, at the time of the write,
the sibling path leads to that very file. -/
theorem save_writes_fresh_or_sibling
    (moduleName serverName out filePath content pluginName : Bytes) (w : World) :
    (∀ pd ∈ writesOf (newEvents w
        (saveFile moduleName serverName out filePath content false pluginName w).world),
      (pd.1 = out ++ str "/" ++ (Split filePath).2 ∧
        Stat (osMkdirAll out w).fs pd.1 = .error .ENOENT ∧ w.fs.readFile pd.1 = none) ∨
      pd.1 = out ++ str "/" ++ (Split filePath).2 ++ (str ".gen" ++ formatCompact w.now)) ∧
    (∀ pd ∈ writesOf (newEvents w (saveFileSimple out filePath content false w).world),
      (pd.1 = out ++ str "/" ++ (Split filePath).2 ∧
        Stat (osMkdirAll out w).fs pd.1 = .error .ENOENT ∧ w.fs.readFile pd.1 = none) ∨
      pd.1 = out ++ str "/" ++ (Split filePath).2 ++ (str ".gen" ++ formatCompact w.now)) ∧
    (∀ (k : Bytes) (ino : Nat), w.fs.inodeOf k = some ino →
      (osMkdirAll out w).fs.inodeOf
        (out ++ str "/" ++ (Split filePath).2 ++ (str ".gen" ++ formatCompact w.now))
          ≠ some ino →
      (saveFile moduleName serverName out filePath content false pluginName w).world.fs.readFile k
        = w.fs.readFile k ∧
      (saveFileSimple out filePath content false w).world.fs.readFile k = w.fs.readFile k) := by
  have hw : ∀ data, ∀ pd ∈ writesOf (newEvents w
        (osWriteFile (destFile out filePath false (osMkdirAll out w)) data
          (osMkdirAll out w)).world),
      (pd.1 = out ++ str "/" ++ (Split filePath).2 ∧
        Stat (osMkdirAll out w).fs pd.1 = .error .ENOENT ∧ w.fs.readFile pd.1 = none) ∨
      pd.1 = out ++ str "/" ++ (Split filePath).2 ++ (str ".gen" ++ formatCompact w.now) := by
    intro data pd hpd
    rw [osWriteFile_newEvents, writesOf_mkdir_write] at hpd
    simp only [List.mem_singleton] at hpd
    subst hpd
    rcases (save_core out filePath data w).1 with ⟨hd, hs⟩ | hd
    · left
      show destFile _ _ _ _ = _ ∧ Stat _ (destFile _ _ _ _) = _ ∧
        w.fs.readFile (destFile _ _ _ _) = none
      rw [hd]
      refine ⟨rfl, hs, ?_⟩
      cases hr : w.fs.readFile (out ++ str "/" ++ (Split filePath).2) with
      | none => rfl
      | some b =>
        exfalso
        obtain ⟨loc, ino, hres, _⟩ := readFile_eq_some _ _ _ hr
        exact Stat_enoent_not_file _ _ hs loc ino (resolve_after_mkdir out _ w loc ino hres)
    · right; exact hd
  refine ⟨?_, ?_, ?_⟩
  · intro pd hpd
    rcases saveFile_cases moduleName serverName out filePath content pluginName false w with h | h
    · rw [h, newEvents_self] at hpd; simp [writesOf] at hpd
    · rw [h.2.2.2] at hpd; exact hw _ pd hpd
  · intro pd hpd
    by_cases hc : content = []
    · subst hc
      simp [saveFileSimple, Outcome.world, newEvents_self, writesOf] at hpd
    · rw [saveFileSimple_nonempty _ _ _ _ _ hc] at hpd; exact hw _ pd hpd
  · intro k ino hk0 hne0
    obtain ⟨loc, hk⟩ := (inodeOf_eq_some _ _ _).1 hk0
    have hne : ∀ loc2, resolve (osMkdirAll out w).fs true
        (out ++ str "/" ++ (Split filePath).2 ++ (str ".gen" ++ formatCompact w.now))
          ≠ .ok (.file loc2 ino) :=
      fun loc2 h => hne0 ((inodeOf_eq_some _ _ _).2 ⟨loc2, h⟩)
    refine ⟨?_, ?_⟩
    · rcases saveFile_cases moduleName serverName out filePath content pluginName false w
        with h | h
      · rw [h]
      · rw [h.2.2.2]; exact (save_core out filePath _ w).2.1 k loc ino hk hne
    · by_cases hc : content = []
      · subst hc; simp [saveFileSimple, Outcome.world]
      · rw [saveFileSimple_nonempty _ _ _ _ _ hc]
        exact (save_core out filePath _ w).2.1 k loc ino hk hne

/-- Witness of C9 (amended): `out/x.go` keeps its bytes when new content for
it is saved over an existing sibling. -/
theorem save_writes_fresh_or_sibling_witness :
    fsWithSibling.inodeOf (str "out/x.go") = some 1 ∧
    (saveFileSimple (str "out") (str "a/x.go") (str "new") false
      ⟨fsWithSibling, noon2024, []⟩).world.fs.readFile (str "out/x.go") =
      fsWithSibling.readFile (str "out/x.go") :=
  ⟨by decide,
   ((save_writes_fresh_or_sibling (str "m") (str "s") (str "out") (str "a/x.go") (str "new")
    (str "handler") ⟨fsWithSibling, noon2024, []⟩).2.2 (str "out/x.go") 1
    (by decide) (by decide)).2⟩

/-- C9 as stated fails.  `out/x.go` exists and so does the sibling
`out/x.go.gen20240101T120000`, left there by an earlier run; a call at noon of
1 January 2024 writes to that sibling, at which a file existed, and replaces
its bytes. -/
theorem save_overwrites_sibling :
    (⟨fsWithSibling, noon2024, []⟩ : World).fs.readFile (str "out/x.go.gen20240101T120000") =
      some (str "earlier") ∧
    writesOf (newEvents ⟨fsWithSibling, noon2024, []⟩
      (saveFileSimple (str "out") (str "a/x.go") (str "new") false
        ⟨fsWithSibling, noon2024, []⟩).world) =
      [(str "out/x.go.gen20240101T120000", str "new")] ∧
    (saveFileSimple (str "out") (str "a/x.go") (str "new") false
      ⟨fsWithSibling, noon2024, []⟩).world.fs.readFile (str "out/x.go.gen20240101T120000") =
      some (str "new") ∧
    writesOf (newEvents ⟨fsWithSibling, noon2024, []⟩
      (saveFile (str "m") (str "s") (str "out") (str "a/x.go") (str "new") false (str "handler")
        ⟨fsWithSibling, noon2024, []⟩).world) =
      [(str "out/x.go.gen20240101T120000", str "new")] ∧
    (saveFile (str "m") (str "s") (str "out") (str "a/x.go") (str "new") false (str "handler")
      ⟨fsWithSibling, noon2024, []⟩).world.fs.readFile (str "out/x.go.gen20240101T120000") =
      some (str "new") := by
  decide

/-! ## What the run hands back -/

/-- C7 (amended).  Under the handler or the service plugin, with non-empty
`moduleName` and `serverName`, what the run hands back does not depend on the
file system: it is nil, no panic, and the router files of the files marked
`Generate`; the run started in a tree where saves fail answers like the run
started in any other tree.  A save error is dropped and only ends the saving
of that file's remaining outputs: the save function returns at the first
output whose save returns an error, in the world that save left, and the loop
goes on with the next file from there, whatever the save function
returned. -/
theorem run_response_ignores_save_errors (g : Generators) (flags : Flags) (gen : Plugin)
    (w w2 : World)
    (hp : ReplaceAll flags.plugin (str " ") (str "") = str "handler" ∨
      ReplaceAll flags.plugin (str " ") (str "") = str "service")
    (hm : flags.moduleName ≠ []) (hs : flags.serverName ≠ []) :
    response w (run g flags gen w) =
      (none, none, (gen.Files.filter (fun f => f.Generate)).map
        (fun f => f.GeneratedFilenamePrefix)) ∧
    response w (run g flags gen w) = response w2 (run g flags gen w2) ∧
    (∀ (f : File) (lo ro eo : Bytes) (w0 : World) (err : Error) (w1 : World),
      saveFile flags.moduleName flags.serverName lo (f.GeneratedFilenamePrefix ++ str ".go")
          (g.handlerGenerateFiles f).1 false handlerPlugin (enterSave handlerPlugin f w0)
        = .ret (some err) w1 →
      saveHandlerAndRouterFiles g f flags.moduleName flags.serverName lo ro eo w0
        = .ret (some err) w1) ∧
    (∀ (f : File) (lo ro eo : Bytes) (w0 : World) (err : Error) (w1 w3 : World),
      saveFile flags.moduleName flags.serverName lo (f.GeneratedFilenamePrefix ++ str ".go")
          (g.handlerGenerateFiles f).1 false handlerPlugin (enterSave handlerPlugin f w0)
        = .ret none w1 →
      saveFile flags.moduleName flags.serverName ro
          (f.GeneratedFilenamePrefix ++ str "_router.go")
          (g.handlerGenerateFiles f).2.1 false handlerPlugin w1
        = .ret (some err) w3 →
      saveHandlerAndRouterFiles g f flags.moduleName flags.serverName lo ro eo w0
        = .ret (some err) w3) ∧
    (∀ (f : File) (lo ro eo : Bytes) (w0 : World) (err : Error) (w1 : World),
      saveFile flags.moduleName flags.serverName lo (f.GeneratedFilenamePrefix ++ str ".go")
          (g.serviceGenerateFiles f).1 false servicePlugin (enterSave servicePlugin f w0)
        = .ret (some err) w1 →
      saveServiceAndRouterFiles g f flags.moduleName flags.serverName lo ro eo w0
        = .ret (some err) w1) ∧
    (∀ (f : File) (lo ro eo : Bytes) (w0 : World) (err : Error) (w1 w3 : World),
      saveFile flags.moduleName flags.serverName lo (f.GeneratedFilenamePrefix ++ str ".go")
          (g.serviceGenerateFiles f).1 false servicePlugin (enterSave servicePlugin f w0)
        = .ret none w1 →
      saveFile flags.moduleName flags.serverName ro
          (f.GeneratedFilenamePrefix ++ str "_router.go")
          (g.serviceGenerateFiles f).2.1 false servicePlugin w1
        = .ret (some err) w3 →
      saveServiceAndRouterFiles g f flags.moduleName flags.serverName lo ro eo w0
        = .ret (some err) w3) ∧
    (∀ (f : File) (rest : List File) (lo ro eo : Bytes) (w0 : World) (r : Option Error)
        (w1 : World), f.Generate = true →
      saveHandlerAndRouterFiles g f flags.moduleName flags.serverName lo ro eo
          (routerGenerateFile f w0) = .ret r w1 →
      processFiles g true false flags.moduleName flags.serverName lo ro eo (f :: rest) w0 =
        processFiles g true false flags.moduleName flags.serverName lo ro eo rest w1) ∧
    (∀ (f : File) (rest : List File) (lo ro eo : Bytes) (w0 : World) (r : Option Error)
        (w1 : World), f.Generate = true →
      saveServiceAndRouterFiles g f flags.moduleName flags.serverName lo ro eo
          (routerGenerateFile f w0) = .ret r w1 →
      processFiles g false true flags.moduleName flags.serverName lo ro eo (f :: rest) w0 =
        processFiles g false true flags.moduleName flags.serverName lo ro eo rest w1) := by
  have key : ∀ w : World, response w (run g flags gen w) =
      (none, none, (gen.Files.filter (fun f => f.Generate)).map
        (fun f => f.GeneratedFilenamePrefix)) := by
    intro w
    obtain ⟨w1, e, s⟩ := run_steps g flags gen w hp hm hs
    rw [e]
    show (none, none, generatedOf (newEvents w w1)) = _
    rw [← generatedOf_stepsOf, s, generatedOf_expectedSteps]
  refine ⟨key w, by rw [key w, key w2], ?_, ?_, ?_, ?_, ?_, ?_⟩
  · intro f lo ro eo w0 err w1 h1
    simp only [saveHandlerAndRouterFiles, h1]
  · intro f lo ro eo w0 err w1 w3 h1 h2
    simp only [saveHandlerAndRouterFiles, h1, h2]
  · intro f lo ro eo w0 err w1 h1
    simp only [saveServiceAndRouterFiles, h1]
  · intro f lo ro eo w0 err w1 w3 h1 h2
    simp only [saveServiceAndRouterFiles, h1, h2]
  · intro f rest lo ro eo w0 r w1 hg h
    conv_lhs => unfold processFiles
    simp only [hg, Bool.not_true, Bool.false_eq_true, if_false, if_true, h]
    cases r <;> rfl
  · intro f rest lo ro eo w0 r w1 hg h
    conv_lhs => unfold processFiles
    simp only [hg, Bool.not_true, Bool.false_eq_true, if_false, if_true, h]
    cases r <;> rfl

/-- Witness of C7 (amended): the batch `b`, `a` in a tree where the write for
`b` fails and in a tree where every write succeeds. -/
theorem run_response_ignores_save_errors_witness :
    response ⟨fsBlockedB, noon2024, []⟩
        (run exampleGenerators (handlerFlags (str "handler")) exampleBatch
          ⟨fsBlockedB, noon2024, []⟩) =
      response ⟨fsEmptyOut, noon2024, []⟩
        (run exampleGenerators (handlerFlags (str "handler")) exampleBatch
          ⟨fsEmptyOut, noon2024, []⟩) :=
  (run_response_ignores_save_errors exampleGenerators (handlerFlags (str "handler"))
    exampleBatch ⟨fsBlockedB, noon2024, []⟩ ⟨fsEmptyOut, noon2024, []⟩
    (Or.inl (by decide)) (by decide) (by decide)).2.1

/-! ## The first failing table -/

theorem tableNamesOf_append (a b : List Bytes) :
    tableNamesOf (a ++ b) = tableNamesOf a ++ tableNamesOf b := by
  simp [tableNamesOf]

theorem daoLoop_cons_empty (env : DaoEnv) (m : Bytes) (count : Nat) (rest : List Bytes)
    (st : DaoState) :
    daoLoop env m count ([] :: rest) st = daoLoop env m (count + 1) rest st := by
  simp [daoLoop]

theorem daoLoop_cons_ok (env : DaoEnv) (m t : Bytes) (count : Nat) (rest : List Bytes)
    (st : DaoState) (codes : Codes) (dir : Bytes) (ht : t ≠ [])
    (hg : env.sql2codeGenerate t = .ok codes)
    (hr : runGenDaoCommand env m
      (if count = 0 ∧ st.isIncludeInitDB = true then true else false) codes st.outPath
        = .ok dir) :
    daoLoop env m count (t :: rest) st =
      daoLoop env m (count + 1) rest
        { isIncludeInitDB := if count = 0 ∧ st.isIncludeInitDB = true then true else false,
          outPath := dir,
          trace := st.trace ++ [DaoEvent.generate t, DaoEvent.runGenDaoCommand t
            (if count = 0 ∧ st.isIncludeInitDB = true then true else false) st.outPath] } := by
  conv_lhs => unfold daoLoop
  simp only [ht, if_false, hg, hr]

/-- The loop over tables whose generation succeeds goes through all of them. -/
theorem daoLoop_prefix (env : DaoEnv) (m : Bytes) (pre rest : List Bytes)
    (hpre : ∀ x ∈ pre, x ≠ [] → ∃ codes, env.sql2codeGenerate x = .ok codes ∧
      ∀ flag out, ∃ dir, runGenDaoCommand env m flag codes out = .ok dir) :
    ∀ (count : Nat) (st : DaoState), ∃ st1 : DaoState,
      daoLoop env m count (pre ++ rest) st = daoLoop env m (count + pre.length) rest st1 ∧
      generatedTables st1.trace = generatedTables st.trace ++ tableNamesOf pre := by
  induction pre with
  | nil => intro count st; exact ⟨st, rfl, by simp [tableNamesOf]⟩
  | cons t pre ih =>
    intro count st
    have ih' := ih (fun x hx => hpre x (List.mem_cons_of_mem _ hx))
    by_cases ht : t = []
    · subst ht
      obtain ⟨st1, e, g⟩ := ih' (count + 1) st
      have hlen : count + 1 + pre.length = count + (([] : Bytes) :: pre).length := by
        simp only [List.length_cons]; omega
      refine ⟨st1, ?_, ?_⟩
      · show daoLoop env m count ([] :: (pre ++ rest)) st = _
        rw [daoLoop_cons_empty, e, hlen]
      · rw [g]; simp [tableNamesOf]
    · obtain ⟨codes, hg, hrun⟩ := hpre t (List.mem_cons_self _ _) ht
      obtain ⟨dir, hdir⟩ := hrun (if count = 0 ∧ st.isIncludeInitDB = true then true else false)
        st.outPath
      obtain ⟨st1, e, g⟩ := ih' (count + 1)
        { isIncludeInitDB := if count = 0 ∧ st.isIncludeInitDB = true then true else false,
          outPath := dir,
          trace := st.trace ++ [DaoEvent.generate t, DaoEvent.runGenDaoCommand t
            (if count = 0 ∧ st.isIncludeInitDB = true then true else false) st.outPath] }
      refine ⟨st1, ?_, ?_⟩
      · show daoLoop env m count (t :: (pre ++ rest)) st = _
        rw [daoLoop_cons_ok env m t count (pre ++ rest) st codes dir ht hg hdir, e]
        have hlen : count + 1 + pre.length = count + (t :: pre).length := by
          simp only [List.length_cons]; omega
        rw [hlen]
      · rw [g]
        simp [generatedTables, List.filterMap_append, tableNamesOf, ht]

/-- The loop at a table whose generation fails: it returns the error at once. -/
theorem daoLoop_fail (env : DaoEnv) (m t : Bytes) (post : List Bytes) (e : Error)
    (ht : t ≠ [])
    (hfail : env.sql2codeGenerate t = .error e ∨
      ∃ codes, env.sql2codeGenerate t = .ok codes ∧
        ∀ flag out, runGenDaoCommand env m flag codes out = .error e)
    (count : Nat) (st : DaoState) :
    (daoLoop env m count (t :: post) st).1 = some e ∧
    generatedTables (daoLoop env m count (t :: post) st).2.trace =
      generatedTables st.trace ++ [t] := by
  unfold daoLoop
  simp only [ht, if_false]
  rcases hfail with hg | ⟨codes, hg, hrun⟩
  · rw [hg]
    exact ⟨rfl, by simp [generatedTables, List.filterMap_append]⟩
  · rw [hg]
    simp [hrun, generatedTables, List.filterMap_append]

/-- C8 (amended).  The dao command stops at the first table whose generation
fails.  When the names split into names whose generation succeeds, a
non-empty name for which `sql2code.Generate` or `runGenDaoCommand` returns an
error, and the names after it, the command returns that error, and the tables
handed to `sql2code.Generate` are exactly the non-empty names up to and
including the failing one: no later table is processed.  When the generation
of every non-empty name succeeds, the command returns nil and every non-empty
name has been processed, in order. -/
theorem dao_stops_at_first_failure (env : DaoEnv) (parentName : Bytes) (flags : DaoFlags)
    (hmod : env.getNamesFromOutDir flags.outPath ≠ [] ∨ flags.moduleName ≠ []) :
    (∀ (pre : List Bytes) (t : Bytes) (post : List Bytes) (e : Error),
      splitComma flags.dbTables = pre ++ t :: post →
      (∀ x ∈ pre, x ≠ [] → ∃ codes, env.sql2codeGenerate x = .ok codes ∧
        ∀ m flag out, ∃ dir, runGenDaoCommand env m flag codes out = .ok dir) →
      t ≠ [] →
      (env.sql2codeGenerate t = .error e ∨
        ∃ codes, env.sql2codeGenerate t = .ok codes ∧
          ∀ m flag out, runGenDaoCommand env m flag codes out = .error e) →
      (DaoCommandRunE env parentName flags).1 = some e ∧
      generatedTables (DaoCommandRunE env parentName flags).2.trace =
        tableNamesOf pre ++ [t]) ∧
    ((∀ x ∈ splitComma flags.dbTables, x ≠ [] → ∃ codes, env.sql2codeGenerate x = .ok codes ∧
        ∀ m flag out, ∃ dir, runGenDaoCommand env m flag codes out = .ok dir) →
      (DaoCommandRunE env parentName flags).1 = none ∧
      generatedTables (DaoCommandRunE env parentName flags).2.trace =
        tableNamesOf (splitComma flags.dbTables)) := by
  -- the module name the loop runs with
  have hrun : ∃ m, DaoCommandRunE env parentName flags =
      daoLoop env m 0 (splitComma flags.dbTables)
        { isIncludeInitDB := flags.isIncludeInitDB, outPath := flags.outPath, trace := [] } := by
    unfold DaoCommandRunE
    by_cases h1 : env.getNamesFromOutDir flags.outPath ≠ []
    · exact ⟨_, by rw [if_pos h1]⟩
    · rcases hmod with h | h
      · exact absurd h h1
      · exact ⟨_, by rw [if_neg h1, if_neg h]⟩
  obtain ⟨m, hm⟩ := hrun
  rw [hm]
  refine ⟨?_, ?_⟩
  · intro pre t post e hsplit hpre ht hfail
    rw [hsplit]
    obtain ⟨st1, e1, g1⟩ := daoLoop_prefix env m pre (t :: post)
      (fun x hx hne => by
        obtain ⟨codes, hg, hr⟩ := hpre x hx hne
        exact ⟨codes, hg, hr m⟩) 0
      { isIncludeInitDB := flags.isIncludeInitDB, outPath := flags.outPath, trace := [] }
    rw [e1]
    have hf := daoLoop_fail env m t post e ht
      (by
        rcases hfail with h | ⟨codes, hg, hr⟩
        · exact Or.inl h
        · exact Or.inr ⟨codes, hg, hr m⟩) (0 + pre.length) st1
    refine ⟨hf.1, ?_⟩
    rw [hf.2, g1]
    simp [generatedTables]
  · intro hall
    obtain ⟨st1, e1, g1⟩ := daoLoop_prefix env m (splitComma flags.dbTables) []
      (fun x hx hne => by
        obtain ⟨codes, hg, hr⟩ := hall x hx hne
        exact ⟨codes, hg, hr m⟩) 0
      { isIncludeInitDB := flags.isIncludeInitDB, outPath := flags.outPath, trace := [] }
    rw [List.append_nil] at e1
    rw [e1]
    refine ⟨by simp [daoLoop], ?_⟩
    simp only [daoLoop]
    rw [g1]
    simp [generatedTables]

/-- Witness of C8 (amended): the list `t2,t1,t3` where `sql2code.Generate`
fails for `t1`: the command returns the error of `t1` after `t2` and `t1`;
`t3` is not processed. -/
theorem dao_stops_at_first_failure_witness :
    (DaoCommandRunE daoEnvFailT1 (str "micro") ⟨str "m", str "", str "t2,t1,t3", false⟩).1 =
      some (Error.external (str "table t1 not found")) ∧
    generatedTables (DaoCommandRunE daoEnvFailT1 (str "micro")
      ⟨str "m", str "", str "t2,t1,t3", false⟩).2.trace = tableNamesOf [str "t2"] ++ [str "t1"] :=
  (dao_stops_at_first_failure daoEnvFailT1 (str "micro")
    ⟨str "m", str "", str "t2,t1,t3", false⟩ (Or.inr (by decide))).1
    [str "t2"] (str "t1") [str "t3"] (Error.external (str "table t1 not found"))
    (by decide)
    (fun x hx _ => by
      simp only [List.mem_singleton] at hx
      subst hx
      exact ⟨[(str "tableName", str "t2")], rfl, fun m flag out => ⟨_, rfl⟩⟩)
    (by decide) (Or.inl rfl)

end Sponge
